import Mathlib

/-!
Verification development for `pyhis/usgs_tables.py`, a PyTables-backed
cache for USGS site metadata and observation values.

The development shallowly embeds the module's data model and operations:

* nested records (python dicts whose values are scalars or nested dicts)
  and the schema-mapper functions `_flatten_nested_dict` / `_row_to_dict`;
* the table schemas declared via `tables.IsDescription` subclasses,
  including the fact that the module defines `USGSValue` twice and the
  second definition shadows the first;
* the store operations and the two synchronizers `update_site_list` and
  `update_site_data`, with the store (the external PyTables engine)
  modelled from the spec's store contract: committed rows, staged
  appends that become durable at flush, in-place row updates, and a
  single reused row buffer for appends.

Scalar cell values are modelled as `String` (the source stores values as
text columns; numeric/bool columns are opaque to all the logic here).
-/

set_option maxHeartbeats 1000000
set_option linter.unusedVariables false

/-- A nested record value: either a scalar (string) or a nested dict,
with dicts encoded inline as `nil`/`cons` entry lists (key, value, rest).
This models the nested python dicts produced by the remote fetch layer
and consumed by `_flatten_nested_dict`. -/
inductive NVal : Type where
  | str : String → NVal
  | nil : NVal
  | cons : String → NVal → NVal → NVal
deriving DecidableEq

/-- A PyTables nested-name tree (`table.description._v_nestedNames`):
an ordered forest whose elements are either leaf column names or named
groups with a child forest; encoded inline as a list. -/
inductive NameT : Type where
  | fnil : NameT
  | leafCons : String → NameT → NameT
  | groupCons : String → NameT → NameT → NameT
deriving DecidableEq

/-- The positional values of a table row (`row[:]`): scalars for leaf
columns and nested records for column groups, in declaration order. -/
inductive RList : Type where
  | rnil : RList
  | scalarCons : String → RList → RList
  | recordCons : RList → RList → RList
deriving DecidableEq

/-- `_flatten_nested_dict(d, prepend)` from the source: flattens a nested
dict into a flat mapping whose keys join ancestor keys with `/`.  Scalar
entries become `(prepend + k, v)` bindings; nested dicts recurse with
`prepend + k + '/'`.  No validation of the keys is performed (the source
docstring merely assumes no key contains `'/'`). -/
def flatten_nested_dict : NVal → String → List (String × String)
  | NVal.nil, _ => []
  | NVal.str _, _ => []
  | NVal.cons k (NVal.str s) rest, p => (p ++ k, s) :: flatten_nested_dict rest p
  | NVal.cons k v rest, p =>
      flatten_nested_dict v (p ++ k ++ "/") ++ flatten_nested_dict rest p

/-- `_row_to_dict(row, names)` from the source: walks the nested-name
tree in parallel with the row's positional values, rebuilding the nested
dict (`zip` truncates on mismatched lengths; mismatched shapes cannot
occur for rows read back from a table of that schema). -/
def row_to_dict : NameT → RList → NVal
  | NameT.fnil, _ => NVal.nil
  | NameT.leafCons n rest, RList.scalarCons s vs =>
      NVal.cons n (NVal.str s) (row_to_dict rest vs)
  | NameT.groupCons n c rest, RList.recordCons sub vs =>
      NVal.cons n (row_to_dict c sub) (row_to_dict rest vs)
  | _, _ => NVal.nil

/-- First binding of `m` at key `k` (python dict read of the flat row). -/
def lookupFlat (m : List (String × String)) (k : String) : Option String :=
  (m.find? (fun e => e.1 == k)).map (fun e => e.2)

/-- Modelled from the spec: the store's row-construction contract
(§4.2).  A fresh row of the given schema is filled by assigning the flat
row's bindings at their path-joined keys (`row[k] = v`); a column whose
path key is absent keeps the column default, modelled as `""`.  The
result is the row's positional values. -/
def rowOfFlat : NameT → List (String × String) → String → RList
  | NameT.fnil, _, _ => RList.rnil
  | NameT.leafCons n rest, m, p =>
      RList.scalarCons ((lookupFlat m (p ++ n)).getD "") (rowOfFlat rest m p)
  | NameT.groupCons n c rest, m, p =>
      RList.recordCons (rowOfFlat c m (p ++ n ++ "/")) (rowOfFlat rest m p)

/-- A record conforms to a schema tree when it has exactly the schema's
fields, in declaration order: scalars at leaves and nested dicts at
groups. -/
def conforms : NVal → NameT → Bool
  | NVal.nil, NameT.fnil => true
  | NVal.cons k (NVal.str _) rest, NameT.leafCons n ns =>
      k == n && conforms rest ns
  | NVal.cons k v rest, NameT.groupCons n c ns =>
      k == n && conforms v c && conforms rest ns
  | _, _ => false

/-- Top-level names of a schema forest. -/
def topNames : NameT → List String
  | NameT.fnil => []
  | NameT.leafCons n rest => n :: topNames rest
  | NameT.groupCons n _ rest => n :: topNames rest

/-- Top-level keys of a record. -/
def topKeys : NVal → List String
  | NVal.cons k _ rest => k :: topKeys rest
  | _ => []

/-- The key contains no `'/'` (the reserved path separator). -/
def slashFree (s : String) : Bool := s.data.all (fun c => c != '/')

/-- Well-formed schema tree: names are slash-free and siblings are
distinct at every level (PyTables enforces both for real schemas). -/
def wfT : NameT → Bool
  | NameT.fnil => true
  | NameT.leafCons n rest =>
      slashFree n && !((topNames rest).contains n) && wfT rest
  | NameT.groupCons n c rest =>
      slashFree n && !((topNames rest).contains n) && wfT c && wfT rest

/-- Well-formed record: keys slash-free, siblings distinct, recursively. -/
def wfR : NVal → Bool
  | NVal.cons k v rest =>
      slashFree k && !((topKeys rest).contains k) && wfR v && wfR rest
  | _ => true

/-- Canonical positional row of a record (proof-side reference point for
the flatten/row machinery). -/
def toRow : NVal → RList
  | NVal.nil => RList.rnil
  | NVal.str _ => RList.rnil
  | NVal.cons _ (NVal.str s) rest => RList.scalarCons s (toRow rest)
  | NVal.cons _ v rest => RList.recordCons (toRow v) (toRow rest)

/-- `LeafAt R path s`: record `R` holds scalar `s` at the path-joined
key `path` (keys of ancestors joined with `'/'`). -/
inductive LeafAt : NVal → String → String → Prop where
  | head (k s rest) : LeafAt (NVal.cons k (NVal.str s) rest) k s
  | inGroup (k d rest path s) : LeafAt d path s →
      LeafAt (NVal.cons k d rest) (k ++ "/" ++ path) s
  | tail (k v rest path s) : LeafAt rest path s →
      LeafAt (NVal.cons k v rest) path s

@[simp] theorem flatten_nil (p : String) : flatten_nested_dict NVal.nil p = [] := rfl

@[simp] theorem flatten_str (s p : String) : flatten_nested_dict (NVal.str s) p = [] := rfl

@[simp] theorem flatten_cons_str (k s : String) (rest : NVal) (p : String) :
    flatten_nested_dict (NVal.cons k (NVal.str s) rest) p
      = (p ++ k, s) :: flatten_nested_dict rest p := rfl

@[simp] theorem flatten_cons_nil (k : String) (rest : NVal) (p : String) :
    flatten_nested_dict (NVal.cons k NVal.nil rest) p = flatten_nested_dict rest p := rfl

@[simp] theorem flatten_cons_cons (k a : String) (b c rest : NVal) (p : String) :
    flatten_nested_dict (NVal.cons k (NVal.cons a b c) rest) p
      = flatten_nested_dict (NVal.cons a b c) (p ++ k ++ "/")
        ++ flatten_nested_dict rest p := rfl

/-! ### String lemmas about the `/` separator -/

theorem string_eq_of_data_eq {a b : String} (h : a.data = b.data) : a = b :=
  String.ext h

theorem string_append_cancel_left {p a b : String} (h : p ++ a = p ++ b) : a = b := by
  apply string_eq_of_data_eq
  have hd : (p ++ a).data = (p ++ b).data := by rw [h]
  simp only [String.data_append] at hd
  exact List.append_cancel_left hd

theorem noslash_sep_inj :
    ∀ (a : List Char), ∀ (b x y : List Char), (∀ c ∈ a, c ≠ '/') → (∀ c ∈ b, c ≠ '/') →
      a ++ '/' :: x = b ++ '/' :: y → a = b := by
  intro a
  induction a with
  | nil =>
    intro b x y _ hb h
    cases b with
    | nil => rfl
    | cons c b' =>
      simp only [List.nil_append, List.cons_append, List.cons.injEq] at h
      exact absurd h.1.symm (hb c (List.mem_cons_self c b'))
  | cons c a' ih =>
    intro b x y ha hb h
    cases b with
    | nil =>
      simp only [List.cons_append, List.nil_append, List.cons.injEq] at h
      exact absurd h.1 (ha c (List.mem_cons_self c a'))
    | cons cb b' =>
      simp only [List.cons_append, List.cons.injEq] at h
      have h2 := ih b' x y (fun d hd => ha d (List.mem_cons_of_mem c hd))
        (fun d hd => hb d (List.mem_cons_of_mem cb hd)) h.2
      rw [h.1, h2]

theorem slashFree_chars {s : String} (h : slashFree s = true) : ∀ c ∈ s.data, c ≠ '/' := by
  intro c hc
  have := List.all_eq_true.1 h c hc
  simpa using this

theorem slashFree_sep_inj {a b x y : String} (ha : slashFree a = true)
    (hb : slashFree b = true) (h : a ++ "/" ++ x = b ++ "/" ++ y) : a = b := by
  apply string_eq_of_data_eq
  have hd : (a ++ "/" ++ x).data = (b ++ "/" ++ y).data := by rw [h]
  simp only [String.data_append, List.append_assoc, List.singleton_append] at hd
  exact noslash_sep_inj a.data b.data x.data y.data (slashFree_chars ha) (slashFree_chars hb) hd

theorem slashFree_ne_sep {c a x : String} (hc : slashFree c = true) : c ≠ a ++ "/" ++ x := by
  intro h
  have hd : c.data = (a ++ "/" ++ x).data := by rw [h]
  simp only [String.data_append] at hd
  have hmem : '/' ∈ c.data := by
    rw [hd]
    simp
  exact slashFree_chars hc '/' hmem rfl

/-! ### Shape of flattened keys and leaf paths -/

theorem flatten_key_prefix :
    ∀ (R : NVal) (p : String) (e : String × String), e ∈ flatten_nested_dict R p →
      ∃ z : String, e.1 = p ++ z := by
  intro R
  induction R with
  | str s => intro p e h; simp at h
  | nil => intro p e h; simp at h
  | cons k v rest ihv ihr =>
    intro p e h
    cases v with
    | str s =>
      rw [flatten_cons_str] at h
      rcases List.mem_cons.1 h with h1 | h2
      · exact ⟨k, by rw [h1]⟩
      · exact ihr p e h2
    | nil =>
      rw [flatten_cons_nil] at h
      exact ihr p e h
    | cons a b c =>
      rw [flatten_cons_cons] at h
      rcases List.mem_append.1 h with h1 | h2
      · rcases ihv (p ++ k ++ "/") e h1 with ⟨z, hz⟩
        refine ⟨k ++ ("/" ++ z), ?_⟩
        rw [hz, String.append_assoc, String.append_assoc]
      · exact ihr p e h2

theorem flatten_key_shape :
    ∀ (R : NVal) (p : String) (e : String × String), e ∈ flatten_nested_dict R p →
      ∃ k, k ∈ topKeys R ∧ (e.1 = p ++ k ∨ ∃ t, e.1 = p ++ k ++ "/" ++ t) := by
  intro R
  induction R with
  | str s => intro p e h; simp at h
  | nil => intro p e h; simp at h
  | cons k v rest ihv ihr =>
    intro p e h
    cases v with
    | str s =>
      rw [flatten_cons_str] at h
      rcases List.mem_cons.1 h with h1 | h2
      · exact ⟨k, List.mem_cons_self _ _, Or.inl (by rw [h1])⟩
      · rcases ihr p e h2 with ⟨k', hk', hcase⟩
        exact ⟨k', List.mem_cons_of_mem _ hk', hcase⟩
    | nil =>
      rw [flatten_cons_nil] at h
      rcases ihr p e h with ⟨k', hk', hcase⟩
      exact ⟨k', List.mem_cons_of_mem _ hk', hcase⟩
    | cons a b c =>
      rw [flatten_cons_cons] at h
      rcases List.mem_append.1 h with h1 | h2
      · rcases flatten_key_prefix (NVal.cons a b c) (p ++ k ++ "/") e h1 with ⟨z, hz⟩
        exact ⟨k, List.mem_cons_self _ _, Or.inr ⟨z, hz⟩⟩
      · rcases ihr p e h2 with ⟨k', hk', hcase⟩
        exact ⟨k', List.mem_cons_of_mem _ hk', hcase⟩

theorem leafAt_path_shape {R : NVal} {path s : String} (h : LeafAt R path s) :
    ∃ k, k ∈ topKeys R ∧ (path = k ∨ ∃ q, path = k ++ "/" ++ q) := by
  induction h with
  | head k s rest => exact ⟨k, List.mem_cons_self _ _, Or.inl rfl⟩
  | inGroup k d rest path s _ _ => exact ⟨k, List.mem_cons_self _ _, Or.inr ⟨path, rfl⟩⟩
  | tail k v rest path s _ ih =>
    rcases ih with ⟨k', hk', hcase⟩
    exact ⟨k', List.mem_cons_of_mem _ hk', hcase⟩

theorem leafAt_is_cons {d : NVal} {path s : String} (h : LeafAt d path s) :
    ∃ k v r, d = NVal.cons k v r := by
  cases h with
  | head => exact ⟨_, _, _, rfl⟩
  | inGroup => exact ⟨_, _, _, rfl⟩
  | tail => exact ⟨_, _, _, rfl⟩

theorem wfR_cons {k : String} {v rest : NVal} (h : wfR (NVal.cons k v rest) = true) :
    slashFree k = true ∧ k ∉ topKeys rest ∧ wfR v = true ∧ wfR rest = true := by
  simp only [wfR, Bool.and_eq_true, Bool.not_eq_true'] at h
  refine ⟨h.1.1.1, ?_, h.1.2, h.2⟩
  intro hmem
  have hc : (topKeys rest).contains k = true := by
    rw [List.contains_eq_any_beq]
    exact List.any_eq_true.2 ⟨k, hmem, by simp⟩
  rw [h.1.1.2] at hc
  simp at hc

theorem wfR_topKeys_slashFree {R : NVal} (h : wfR R = true) :
    ∀ k ∈ topKeys R, slashFree k = true := by
  induction R with
  | str s => intro k hk; simp [topKeys] at hk
  | nil => intro k hk; simp [topKeys] at hk
  | cons k0 v rest _ ihr =>
    intro k hk
    rcases wfR_cons h with ⟨h1, _, _, h4⟩
    rcases List.mem_cons.1 hk with rfl | hk2
    · exact h1
    · exact ihr h4 k hk2

/-! ### Lookup of a leaf path in the flattened record -/

theorem lookupFlat_flatten {R : NVal} {path s : String} (h : LeafAt R path s) :
    wfR R = true → ∀ p, lookupFlat (flatten_nested_dict R p) (p ++ path) = some s := by
  induction h with
  | head k s rest =>
    intro _ p
    rw [flatten_cons_str]
    simp [lookupFlat]
  | inGroup k d rest path s hl ih =>
    intro hw p
    rcases leafAt_is_cons hl with ⟨k0, v0, r0, rfl⟩
    rcases wfR_cons hw with ⟨_, _, hwd, _⟩
    rw [flatten_cons_cons]
    have hkey : p ++ (k ++ "/" ++ path) = (p ++ k ++ "/") ++ path := by
      simp only [String.append_assoc]
    rw [hkey]
    have := ih hwd (p ++ k ++ "/")
    unfold lookupFlat at this ⊢
    rw [List.find?_append]
    cases hfind : (flatten_nested_dict (NVal.cons k0 v0 r0) (p ++ k ++ "/")).find?
        (fun e => e.1 == p ++ k ++ "/" ++ path) with
    | none => rw [hfind] at this; simp at this
    | some e => rw [hfind] at this; simp only [Option.or_some, Option.map_some'] at this ⊢; exact this
  | tail k v rest path s hl ih =>
    intro hw p
    rcases wfR_cons hw with ⟨hk, hknot, _, hwr⟩
    rcases leafAt_path_shape hl with ⟨k2, hk2mem, hshape⟩
    have hk2free : slashFree k2 = true := wfR_topKeys_slashFree hwr k2 hk2mem
    have hkneq : k ≠ k2 := fun he => hknot (he ▸ hk2mem)
    -- the key we are looking for differs from every key of the head part
    have hne : ∀ e ∈ flatten_nested_dict (NVal.cons k v NVal.nil) p, e.1 ≠ p ++ path := by
      intro e he hcontra
      cases v with
      | str s0 =>
        simp only [flatten_cons_str, flatten_nil, List.mem_singleton] at he
        rw [he] at hcontra
        have hkpath : k = path := string_append_cancel_left hcontra
        rcases hshape with rfl | ⟨q, rfl⟩
        · exact hkneq hkpath
        · exact slashFree_ne_sep hk hkpath
      | nil => simp at he
      | cons a b c =>
        rw [flatten_cons_cons, flatten_nil, List.append_nil] at he
        rcases flatten_key_prefix (NVal.cons a b c) (p ++ k ++ "/") e he with ⟨z, hz⟩
        rw [hz] at hcontra
        have hz2 : p ++ k ++ "/" ++ z = p ++ (k ++ "/" ++ z) := by
          rw [String.append_assoc, String.append_assoc, String.append_assoc]
        rw [hz2] at hcontra
        have hpath : path = k ++ "/" ++ z := (string_append_cancel_left hcontra.symm)
        rcases hshape with rfl | ⟨q, hq⟩
        · exact slashFree_ne_sep hk2free hpath
        · rw [hq] at hpath
          exact hkneq (slashFree_sep_inj hk2free hk hpath).symm
    -- head part of the flattened list
    cases v with
    | str s0 =>
      rw [flatten_cons_str]
      unfold lookupFlat
      rw [List.find?_cons_of_neg, ← lookupFlat]
      · exact ih hwr p
      · have := hne (p ++ k, s0) (by simp)
        simpa using this
    | nil =>
      rw [flatten_cons_nil]
      exact ih hwr p
    | cons a b c =>
      rw [flatten_cons_cons]
      unfold lookupFlat
      rw [List.find?_append]
      have hnone : (flatten_nested_dict (NVal.cons a b c) (p ++ k ++ "/")).find?
          (fun e => e.1 == p ++ path) = none := by
        rw [List.find?_eq_none]
        intro e he
        have := hne e (by rw [flatten_cons_cons, flatten_nil, List.append_nil]; exact he)
        simpa using this
      rw [hnone, Option.none_or, ← lookupFlat]
      exact ih hwr p

/-! ### Conformance inversions and the canonical row -/

theorem conforms_fnil {R : NVal} (h : conforms R NameT.fnil = true) : R = NVal.nil := by
  cases R with
  | nil => rfl
  | str s => simp [conforms] at h
  | cons k v rest => cases v <;> simp [conforms] at h

theorem conforms_str_false {s : String} {F : NameT} : conforms (NVal.str s) F = false := by
  cases F <;> rfl

theorem conforms_leafCons {R : NVal} {n : String} {ns : NameT}
    (h : conforms R (NameT.leafCons n ns) = true) :
    ∃ s rest, R = NVal.cons n (NVal.str s) rest ∧ conforms rest ns = true := by
  cases R with
  | nil => simp [conforms] at h
  | str s => simp [conforms] at h
  | cons k v rest =>
    cases v with
    | str s =>
      simp only [conforms, Bool.and_eq_true, beq_iff_eq] at h
      exact ⟨s, rest, by rw [h.1], h.2⟩
    | nil => simp [conforms] at h
    | cons a b c => simp [conforms] at h

theorem conforms_groupCons {R : NVal} {n : String} {c ns : NameT}
    (h : conforms R (NameT.groupCons n c ns) = true) :
    ∃ v rest, R = NVal.cons n v rest ∧ conforms v c = true ∧ conforms rest ns = true
      ∧ (v = NVal.nil ∨ ∃ a b d, v = NVal.cons a b d) := by
  cases R with
  | nil => simp [conforms] at h
  | str s => simp [conforms] at h
  | cons k v rest =>
    cases v with
    | str s =>
      simp only [conforms, Bool.and_eq_true, beq_iff_eq, conforms_str_false] at h
      simp at h
    | nil =>
      simp only [conforms, Bool.and_eq_true, beq_iff_eq] at h
      exact ⟨NVal.nil, rest, by rw [h.1.1], h.1.2, h.2, Or.inl rfl⟩
    | cons a b d =>
      simp only [conforms, Bool.and_eq_true, beq_iff_eq] at h
      exact ⟨NVal.cons a b d, rest, by rw [h.1.1], h.1.2, h.2, Or.inr ⟨a, b, d, rfl⟩⟩

theorem row_to_dict_toRow {F : NameT} :
    ∀ {R : NVal}, conforms R F = true → row_to_dict F (toRow R) = R := by
  induction F with
  | fnil =>
    intro R h
    rw [conforms_fnil h]
    rfl
  | leafCons n ns ihr =>
    intro R h
    rcases conforms_leafCons h with ⟨s, rest, rfl, hrest⟩
    show NVal.cons n (NVal.str s) (row_to_dict ns (toRow rest)) = _
    rw [ihr hrest]
  | groupCons n c ns ihc ihr =>
    intro R h
    rcases conforms_groupCons h with ⟨v, rest, rfl, hv, hrest, hshape⟩
    rcases hshape with rfl | ⟨a, b, d, rfl⟩
    · show NVal.cons n (row_to_dict c (toRow NVal.nil)) (row_to_dict ns (toRow rest)) = _
      rw [ihc hv, ihr hrest]
    · show NVal.cons n (row_to_dict c (toRow (NVal.cons a b d))) (row_to_dict ns (toRow rest)) = _
      rw [ihc hv, ihr hrest]

theorem rowOfFlat_eq_toRow {F : NameT} :
    ∀ {R : NVal} {m : List (String × String)} {p : String}, conforms R F = true →
      (∀ path s, LeafAt R path s → lookupFlat m (p ++ path) = some s) →
      rowOfFlat F m p = toRow R := by
  induction F with
  | fnil =>
    intro R m p h _
    rw [conforms_fnil h]
    rfl
  | leafCons n ns ihr =>
    intro R m p h hlk
    rcases conforms_leafCons h with ⟨s, rest, rfl, hrest⟩
    show RList.scalarCons ((lookupFlat m (p ++ n)).getD "") (rowOfFlat ns m p) = _
    have hhead := hlk n s (LeafAt.head n s rest)
    rw [hhead]
    show RList.scalarCons s (rowOfFlat ns m p) = RList.scalarCons s (toRow rest)
    rw [ihr hrest (fun path s' hl => hlk path s' (LeafAt.tail n (NVal.str s) rest path s' hl))]
  | groupCons n c ns ihc ihr =>
    intro R m p h hlk
    rcases conforms_groupCons h with ⟨v, rest, rfl, hv, hrest, hshape⟩
    have hsub : rowOfFlat c m (p ++ n ++ "/") = toRow v := by
      apply ihc hv
      intro path s hl
      have hthis := hlk (n ++ "/" ++ path) s (LeafAt.inGroup n v rest path s hl)
      have heq : p ++ n ++ "/" ++ path = p ++ (n ++ "/" ++ path) := by
        simp only [String.append_assoc]
      rw [heq]
      exact hthis
    have htail : rowOfFlat ns m p = toRow rest :=
      ihr hrest (fun path s' hl => hlk path s' (LeafAt.tail n v rest path s' hl))
    rcases hshape with rfl | ⟨a, b, d, rfl⟩
    · show RList.recordCons (rowOfFlat c m (p ++ n ++ "/")) (rowOfFlat ns m p) = _
      rw [hsub, htail]
      rfl
    · show RList.recordCons (rowOfFlat c m (p ++ n ++ "/")) (rowOfFlat ns m p) = _
      rw [hsub, htail]
      rfl

theorem conforms_topKeys {F : NameT} :
    ∀ {R : NVal}, conforms R F = true → topKeys R = topNames F := by
  induction F with
  | fnil =>
    intro R h
    rw [conforms_fnil h]
    rfl
  | leafCons n ns ihr =>
    intro R h
    rcases conforms_leafCons h with ⟨s, rest, rfl, hrest⟩
    show n :: topKeys rest = n :: topNames ns
    rw [ihr hrest]
  | groupCons n c ns _ ihr =>
    intro R h
    rcases conforms_groupCons h with ⟨v, rest, rfl, _, hrest, _⟩
    show n :: topKeys rest = n :: topNames ns
    rw [ihr hrest]

theorem wfT_wfR {F : NameT} :
    ∀ {R : NVal}, wfT F = true → conforms R F = true → wfR R = true := by
  induction F with
  | fnil =>
    intro R _ h
    rw [conforms_fnil h]
    rfl
  | leafCons n ns ihr =>
    intro R hw h
    rcases conforms_leafCons h with ⟨s, rest, rfl, hrest⟩
    simp only [wfT, Bool.and_eq_true] at hw
    show wfR (NVal.cons n (NVal.str s) rest) = true
    simp only [wfR, Bool.and_eq_true]
    refine ⟨⟨⟨hw.1.1, ?_⟩, trivial⟩, ihr hw.2 hrest⟩
    rw [conforms_topKeys hrest]
    exact hw.1.2
  | groupCons n c ns ihc ihr =>
    intro R hw h
    rcases conforms_groupCons h with ⟨v, rest, rfl, hv, hrest, _⟩
    simp only [wfT, Bool.and_eq_true] at hw
    show wfR (NVal.cons n v rest) = true
    simp only [wfR, Bool.and_eq_true]
    refine ⟨⟨⟨hw.1.1.1, ?_⟩, ihc hw.1.2 hv⟩, ihr hw.2 hrest⟩
    rw [conforms_topKeys hrest]
    exact hw.1.1.2

/-- C2: for every well-formed nested record `R` conforming to a declared
schema tree (slash-free, sibling-distinct names), unflattening — via
`_row_to_dict` with the schema's nested names — the row filled from
`_flatten_nested_dict R` returns a record equal to `R`.  Both operations
are pure total Lean functions. -/
theorem c2_flatten_unflatten_round_trip (F : NameT) (R : NVal)
    (hwf : wfT F = true) (hc : conforms R F = true) :
    row_to_dict F (rowOfFlat F (flatten_nested_dict R "") "") = R := by
  have hwr : wfR R = true := wfT_wfR hwf hc
  have h1 : rowOfFlat F (flatten_nested_dict R "") "" = toRow R := by
    apply rowOfFlat_eq_toRow hc
    intro path s hl
    exact lookupFlat_flatten hl hwr ""
  rw [h1]
  exact row_to_dict_toRow hc

/-- Concrete witness for C2: a two-level record with a nested group. -/
theorem c2_witness :
    wfT (NameT.leafCons "a" (NameT.groupCons "b" (NameT.leafCons "c" NameT.fnil) NameT.fnil)) = true
    ∧ conforms
        (NVal.cons "a" (NVal.str "1")
          (NVal.cons "b" (NVal.cons "c" (NVal.str "2") NVal.nil) NVal.nil))
        (NameT.leafCons "a" (NameT.groupCons "b" (NameT.leafCons "c" NameT.fnil) NameT.fnil)) = true
    ∧ row_to_dict
        (NameT.leafCons "a" (NameT.groupCons "b" (NameT.leafCons "c" NameT.fnil) NameT.fnil))
        (rowOfFlat
          (NameT.leafCons "a" (NameT.groupCons "b" (NameT.leafCons "c" NameT.fnil) NameT.fnil))
          (flatten_nested_dict
            (NVal.cons "a" (NVal.str "1")
              (NVal.cons "b" (NVal.cons "c" (NVal.str "2") NVal.nil) NVal.nil)) "") "")
      = NVal.cons "a" (NVal.str "1")
          (NVal.cons "b" (NVal.cons "c" (NVal.str "2") NVal.nil) NVal.nil) :=
  ⟨by decide, by decide,
    c2_flatten_unflatten_round_trip _ _ (by decide) (by decide)⟩

example :
    flatten_nested_dict
      (NVal.cons "a" (NVal.str "1")
        (NVal.cons "b" (NVal.cons "c" (NVal.str "2") NVal.nil) NVal.nil)) ""
    = [("a", "1"), ("b/c", "2")] := by decide

example :
    row_to_dict (NameT.leafCons "a" (NameT.groupCons "b" (NameT.leafCons "c" NameT.fnil) NameT.fnil))
      (RList.scalarCons "1" (RList.recordCons (RList.scalarCons "2" RList.rnil) RList.rnil))
    = NVal.cons "a" (NVal.str "1")
        (NVal.cons "b" (NVal.cons "c" (NVal.str "2") NVal.nil) NVal.nil) := by decide

/-! ## Table schemas (the `tables.IsDescription` subclasses)

Schemas are modelled as their nested-name trees.  PyTables orders
columns alphabetically when no explicit positions are given (none are in
the source), so the forests below are in alphabetical order at every
level; only name structure matters to the claims, not column types. -/

/-- `USGSSite` (source lines 15-39). -/
def USGSSite : NameT :=
  NameT.leafCons "agency" (NameT.leafCons "code" (NameT.leafCons "county"
    (NameT.leafCons "huc"
      (NameT.groupCons "location"
        (NameT.leafCons "latitude" (NameT.leafCons "longitude"
          (NameT.leafCons "srs" NameT.fnil)))
        (NameT.leafCons "name" (NameT.leafCons "network" (NameT.leafCons "site_type"
          (NameT.leafCons "state_code"
            (NameT.groupCons "timezone_info"
              (NameT.groupCons "default_tz"
                (NameT.leafCons "abbreviation" (NameT.leafCons "offset" NameT.fnil))
                (NameT.groupCons "dst_tz"
                  (NameT.leafCons "abbreviation" (NameT.leafCons "offset" NameT.fnil))
                  (NameT.leafCons "uses_dst" NameT.fnil)))
              NameT.fnil)))))))))

/-- The first `class USGSValue(tables.IsDescription)` (source lines
42-55): a flat schema with denormalized site/variable columns. -/
def USGSValue_first : NameT :=
  NameT.leafCons "datetime" (NameT.leafCons "qualifiers"
    (NameT.leafCons "site_code" (NameT.leafCons "site_network"
      (NameT.leafCons "value" (NameT.leafCons "variable_code"
        (NameT.leafCons "variable_network"
          (NameT.leafCons "variable_statistic_code"
            (NameT.leafCons "variable_statistic_name" NameT.fnil))))))))

/-- `USGSVariable` (source lines 58-70). -/
def USGSVariable : NameT :=
  NameT.leafCons "code" (NameT.leafCons "description" (NameT.leafCons "name"
    (NameT.leafCons "network" (NameT.leafCons "no_data_value"
      (NameT.groupCons "statistic"
        (NameT.leafCons "code" (NameT.leafCons "name" NameT.fnil))
        (NameT.leafCons "type" (NameT.leafCons "unit"
          (NameT.leafCons "vocabulary" NameT.fnil))))))))

/-- The second `class USGSValue(tables.IsDescription)` (source lines
73-88): nested `site`, `variable` and `variable.statistic` groups and no
flat denormalized columns. -/
def USGSValue_second : NameT :=
  NameT.leafCons "datetime" (NameT.leafCons "qualifiers"
    (NameT.groupCons "site"
      (NameT.leafCons "code" (NameT.leafCons "network" NameT.fnil))
      (NameT.leafCons "value"
        (NameT.groupCons "variable"
          (NameT.leafCons "code" (NameT.leafCons "network"
            (NameT.groupCons "statistic"
              (NameT.leafCons "code" (NameT.leafCons "name" NameT.fnil))
              NameT.fnil)))
          NameT.fnil))))

/-- The module executes two `class USGSValue` statements in order; each
rebinds the module-level name. -/
def USGSValue_defs : List NameT := [USGSValue_first, USGSValue_second]

/-- The binding of `USGSValue` after the module body runs: python class
statements are sequential assignments, so the last definition wins. -/
def USGSValue : NameT := USGSValue_defs.getLastD NameT.fnil

/-- `table.cols.<n>` resolves a top-level column (or column group) by
name; modelled as membership among the schema's top-level names. -/
def hasTopCol (t : NameT) (n : String) : Bool := (topNames t).contains n

/-- The value-table columns on which `init_h5` creates indexes
(source lines 119-123: `values.cols.<n>.createIndex()`). -/
def init_h5_value_index_columns : List String :=
  ["datetime", "site_code", "site_network", "variable_code", "variable_network"]

/-- The column names used by the `update_site_data` where-clause
(source lines 175-176). -/
def where_clause_columns : List String := ["site_code", "variable_code", "datetime"]

/-! ## The store model

Modelled from the spec: the storage engine itself (PyTables) is an
external collaborator (spec §1, §4.2).  A store holds the committed rows
of the sites and values tables; a synchronization call additionally
keeps staged appends (durable only at flush) and the single reused row
buffer that `table.row` provides.  So that the synchronizer logic can be
exercised, value rows are modelled with the flat columns that
`update_site_data` names — the layout of the first `USGSValue`
definition; the separate schema theorems record that the schema actually
in effect is the second definition, which lacks those columns. -/

/-- A row of the sites table: one field per leaf of `USGSSite`, in
schema order; cell values are opaque strings. -/
structure SiteRow where
  agency : String
  code : String
  county : String
  huc : String
  location_latitude : String
  location_longitude : String
  location_srs : String
  name : String
  network : String
  site_type : String
  state_code : String
  timezone_info_default_tz_abbreviation : String
  timezone_info_default_tz_offset : String
  timezone_info_dst_tz_abbreviation : String
  timezone_info_dst_tz_offset : String
  timezone_info_uses_dst : String
deriving DecidableEq

/-- A fresh site row: every column at its default (modelled ""). -/
def defaultSiteRow : SiteRow :=
  ⟨"", "", "", "", "", "", "", "", "", "", "", "", "", "", "", ""⟩

/-- `site_row[k] = v`: assignment to a site-row field by its path-joined
column key; an unknown key leaves the row unchanged. -/
def setSiteField (r : SiteRow) (k v : String) : SiteRow :=
  match k with
  | "agency" => { r with agency := v }
  | "code" => { r with code := v }
  | "county" => { r with county := v }
  | "huc" => { r with huc := v }
  | "location/latitude" => { r with location_latitude := v }
  | "location/longitude" => { r with location_longitude := v }
  | "location/srs" => { r with location_srs := v }
  | "name" => { r with name := v }
  | "network" => { r with network := v }
  | "site_type" => { r with site_type := v }
  | "state_code" => { r with state_code := v }
  | "timezone_info/default_tz/abbreviation" =>
      { r with timezone_info_default_tz_abbreviation := v }
  | "timezone_info/default_tz/offset" => { r with timezone_info_default_tz_offset := v }
  | "timezone_info/dst_tz/abbreviation" => { r with timezone_info_dst_tz_abbreviation := v }
  | "timezone_info/dst_tz/offset" => { r with timezone_info_dst_tz_offset := v }
  | "timezone_info/uses_dst" => { r with timezone_info_uses_dst := v }
  | _ => r

/-- The positional values (`row[:]`) of a site row, in the nested shape
of `USGSSite`. -/
def siteRowToRList (r : SiteRow) : RList :=
  RList.scalarCons r.agency (RList.scalarCons r.code (RList.scalarCons r.county
    (RList.scalarCons r.huc
      (RList.recordCons
        (RList.scalarCons r.location_latitude (RList.scalarCons r.location_longitude
          (RList.scalarCons r.location_srs RList.rnil)))
        (RList.scalarCons r.name (RList.scalarCons r.network (RList.scalarCons r.site_type
          (RList.scalarCons r.state_code
            (RList.recordCons
              (RList.recordCons
                (RList.scalarCons r.timezone_info_default_tz_abbreviation
                  (RList.scalarCons r.timezone_info_default_tz_offset RList.rnil))
                (RList.recordCons
                  (RList.scalarCons r.timezone_info_dst_tz_abbreviation
                    (RList.scalarCons r.timezone_info_dst_tz_offset RList.rnil))
                  (RList.scalarCons r.timezone_info_uses_dst RList.rnil)))
              RList.rnil)))))))))

/-- A row of the values table, with the flat columns that
`update_site_data` reads and writes. -/
structure ValueRow where
  datetime : String
  qualifiers : String
  value : String
  site_code : String
  site_network : String
  variable_code : String
  variable_network : String
  variable_statistic_code : String
  variable_statistic_name : String
deriving DecidableEq

/-- A fresh value row: every column at its default (modelled ""). -/
def defaultValueRow : ValueRow := ⟨"", "", "", "", "", "", "", "", ""⟩

/-- `row[k] = v` on a value row (`row.__setitem__` in
`_update_row_with_dict`); an unknown key leaves the row unchanged. -/
def setValueField (r : ValueRow) (k v : String) : ValueRow :=
  match k with
  | "datetime" => { r with datetime := v }
  | "qualifiers" => { r with qualifiers := v }
  | "value" => { r with value := v }
  | "site_code" => { r with site_code := v }
  | "site_network" => { r with site_network := v }
  | "variable_code" => { r with variable_code := v }
  | "variable_network" => { r with variable_network := v }
  | "variable_statistic_code" => { r with variable_statistic_code := v }
  | "variable_statistic_name" => { r with variable_statistic_name := v }
  | _ => r

/-- A store file: the committed rows of the sites and values tables (the
variables table has no synchronization routine and carries no state any
claim depends on). -/
structure Store where
  sites : List SiteRow
  values : List ValueRow
deriving DecidableEq

/-- The file system: a store for every path. -/
def FS : Type := String → Store

/-- Writing a store file at a path. -/
def setFS (fs : FS) (p : String) (st : Store) : FS :=
  fun q => if q == p then st else fs q

/-- Modelled from the spec: the default store path
`os.path.join(tempfile.gettempdir(), "pyhis.h5")`, with the system temp
directory fixed to `/tmp`. -/
def HDF5_FILE_PATH : String := "/tmp/pyhis.h5"

/-! ## Reads: get_sites / get_site -/

/-- `get_sites(path)`: the association list underlying the returned
python dict `{row['code']: _row_to_dict(row, names)}`. -/
def get_sites (fs : FS) (path : String) : List (String × NVal) :=
  (fs path).sites.map (fun r => (r.code, row_to_dict USGSSite (siteRowToRList r)))

/-- Reading a python dict built from an association list: on duplicate
keys the binding written last wins, and `.get` of a missing key is
`None`. -/
def dictGet (m : List (String × NVal)) (k : String) : Option NVal :=
  (m.reverse.find? (fun e => e.1 == k)).map (fun e => e.2)

/-- `get_site(site_code, path)`: the body calls `get_sites()` with no
argument, so it always reads the default-path store and ignores `path`;
`.get` yields `none` for an unknown code rather than raising. -/
def get_site (fs : FS) (site_code : String) (path : String) : Option NVal :=
  dictGet (get_sites fs HDF5_FILE_PATH) site_code

/-- Reading key `k` of a nested-record dict. -/
def dGet : NVal → String → Option NVal
  | NVal.cons k v rest, key => if k == key then some v else dGet rest key
  | _, _ => none

/-- `d[k]` coerced to a scalar ("" when absent or not a scalar; the uses
below only ever hit scalar fields present in the record). -/
def dGetStr (d : NVal) (key : String) : String :=
  match dGet d key with
  | some (NVal.str s) => s
  | _ => ""

/-! ## update_site_list -/

/-- Events observable during a synchronization call. -/
inductive Event : Type where
  | scan (site_code variable_code datetime : String)
  | update (site_code variable_code datetime : String)
  | append (variable_code datetime : String)
  | appendSite
  | flush
deriving DecidableEq

/-- The outcome of a site-list synchronization: the resulting file
system, whether the store handle was closed, and the event trace. -/
structure SiteSyncOutcome where
  result : FS
  closed : Bool
  trace : List Event

/-- The append loop of `update_site_list`: one reused row buffer
(`site_table.row`); each site record is flattened and written into the
buffer, then the buffer is appended.  Fields that a record does not set
keep the value left by the previous iteration. -/
def siteAppendLoop (buf : SiteRow) : List NVal → List SiteRow
  | [] => []
  | s :: rest =>
      let b1 := (flatten_nested_dict s "").foldl (fun b e => setSiteField b e.1 e.2) buf
      b1 :: siteAppendLoop b1 rest

/-- `update_site_list(state_code, path)` with the fetched site records
passed explicitly (the remote fetch `usgs_core.get_sites(state_code)` is
an external collaborator): opens the store at `path`, appends every
record's flattened row — no matching against existing rows — then
flushes once and closes.  There is no failure path. -/
def update_site_list (fs : FS) (sites : List NVal) (path : String) : SiteSyncOutcome :=
  let store := fs path
  let newRows := siteAppendLoop defaultSiteRow sites
  ⟨setFS fs path { store with sites := store.sites ++ newRows },
   true,
   sites.map (fun _ => Event.appendSite) ++ [Event.flush]⟩

/-! ## update_site_data -/

/-- An incoming observation value `{datetime, qualifiers, value}`. -/
structure UpdValue where
  datetime : String
  qualifiers : String
  value : String
deriving DecidableEq

/-- The dict content of an incoming value. -/
def uvDict (v : UpdValue) : List (String × String) :=
  [("datetime", v.datetime), ("qualifiers", v.qualifiers), ("value", v.value)]

/-- The owning variable context of a group of incoming values. -/
structure VarCtx where
  code : String
  network : String
  statistic : Option (String × String)
deriving DecidableEq

/-- One entry of the fetched site data: a variable context and its
ordered incoming values. -/
structure DataGroup where
  varCtx : VarCtx
  values : List UpdValue
deriving DecidableEq

/-- The denormalized foreign-attribute dict `value_variable` built at
source lines 161-169 (statistic columns only when the variable has a
statistic). -/
def value_variable (site_code site_network : String) (v : VarCtx) : List (String × String) :=
  [("site_code", site_code), ("site_network", site_network),
   ("variable_code", v.code), ("variable_network", v.network)] ++
  (match v.statistic with
   | some st => [("variable_statistic_code", st.1), ("variable_statistic_name", st.2)]
   | none => [])

/-- `_update_row_with_dict(row, dict)`: assign every binding into the
row. -/
def update_row_with_dict (r : ValueRow) (d : List (String × String)) : ValueRow :=
  d.foldl (fun row e => setValueField row e.1 e.2) r

/-- `_update_row_with_value(row, value, value_variable)`: the value dict
merged with the foreign attributes (`value.update(value_variable)`),
assigned into the row. -/
def update_row_with_value (r : ValueRow) (v : UpdValue)
    (vv : List (String × String)) : ValueRow :=
  update_row_with_dict r (uvDict v ++ vv)

/-- The where-clause of source lines 175-176: site code, variable code
and datetime all equal (exact equality, no tolerance). -/
def matchesWhere (sc vc dt : String) (r : ValueRow) : Bool :=
  r.site_code == sc && r.variable_code == vc && r.datetime == dt

/-- The inner `for existing_row in value_table.where(...): update;
break` loop: update the first row matching the predicate in scan order,
leave the rest of the table unchanged; `none` when nothing matches. -/
def updateFirstMatch (sc vc : String) (uv : UpdValue) (vv : List (String × String)) :
    List ValueRow → Option (List ValueRow)
  | [] => none
  | r :: rs =>
      if matchesWhere sc vc uv.datetime r then
        some (update_row_with_value r uv vv :: rs)
      else
        (updateFirstMatch sc vc uv vv rs).map (fun rs1 => r :: rs1)

/-- Errors a synchronization call can raise. -/
inductive PyErr : Type where
  | typeError
  | notFound
deriving DecidableEq

/-- In-flight state of one `update_site_data` call: the committed rows
of the values table, the staged (unflushed) appends, the reused append
buffer `value_table.row`, and the event trace. -/
structure SyncState where
  committed : List ValueRow
  staged : List ValueRow
  buffer : ValueRow
  trace : List Event
deriving DecidableEq

/-- The first pass over one group's values (source lines 174-184): scan
for each value in input order; update the first match in place, or
record the value's index for deferred append. -/
def phase1 (sc vc : String) (vv : List (String × String)) :
    List ValueRow → Nat → List UpdValue → List ValueRow × List Nat × List Event
  | rows, _, [] => (rows, [], [])
  | rows, i, uv :: rest =>
      match updateFirstMatch sc vc uv vv rows with
      | some rows1 =>
          let r := phase1 sc vc vv rows1 (i + 1) rest
          (r.1, r.2.1,
            Event.scan sc vc uv.datetime :: Event.update sc vc uv.datetime :: r.2.2)
      | none =>
          let r := phase1 sc vc vv rows (i + 1) rest
          (r.1, i :: r.2.1, Event.scan sc vc uv.datetime :: r.2.2)

/-- The deferred-append pass (source lines 186-189): for each recorded
index, write `update_values[i]` merged with the foreign attributes into
the reused buffer and stage the buffer as a new row. -/
def phase2 (vc : String) (vv : List (String × String)) (values : List UpdValue) :
    ValueRow → List Nat → ValueRow × List ValueRow × List Event
  | buf, [] => (buf, [], [])
  | buf, i :: rest =>
      let v := values.getD i ⟨"", "", ""⟩
      let b1 := update_row_with_value buf v vv
      let r := phase2 vc vv values b1 rest
      (r.1, b1 :: r.2.1, Event.append vc v.datetime :: r.2.2)

/-- Processing of one entry of the fetched site data (one iteration of
the outer `for d in site_data.itervalues()` loop). -/
def processGroup (sc sn : String) (g : DataGroup) (st : SyncState) : SyncState :=
  let vv := value_variable sc sn g.varCtx
  let p1 := phase1 sc g.varCtx.code vv st.committed 0 g.values
  let p2 := phase2 g.varCtx.code vv g.values st.buffer p1.2.1
  { committed := p1.1
    staged := st.staged ++ p2.2.1
    buffer := p2.1
    trace := st.trace ++ p1.2.2 ++ p2.2.2 }

/-- The outer loop over the fetched site data.  `site` is the result of
`get_site(site_code)`; python evaluates `site['code']` inside the loop
body, so when the site is `None` the first iteration raises a
`TypeError` — and an empty batch raises nothing. -/
def runGroups (site : Option NVal) : List DataGroup → SyncState → Except PyErr SyncState
  | [], st => Except.ok st
  | g :: gs, st =>
      match site with
      | none => Except.error PyErr.typeError
      | some s => runGroups site gs (processGroup (dGetStr s "code") (dGetStr s "network") g st)

/-- The outcome of a value synchronization: resulting file system, the
raised error if any, whether the store handle was closed, and the event
trace. -/
structure SyncOutcome where
  result : FS
  err : Option PyErr
  closed : Bool
  trace : List Event

/-- `update_site_data(site_code, date_range, path)` with the fetched
site data passed explicitly (the remote fetch
`usgs_core.get_site_data(...)` is an external collaborator).  The site
context is resolved by `get_site(site_code)` — called without a path, so
against the default store.  The store at `path` is then opened
read-write; groups are processed in order; one flush commits the staged
appends; the handle is closed at the end of the straight-line body, so
an error escaping mid-batch leaves it open (the source has no
`try/finally`). -/
def update_site_data (fs : FS) (site_code : String) (site_data : List DataGroup)
    (path : String) : SyncOutcome :=
  let site := get_site fs site_code HDF5_FILE_PATH
  let store := fs path
  let st0 : SyncState := ⟨store.values, [], defaultValueRow, []⟩
  match runGroups site site_data st0 with
  | Except.error e => ⟨fs, some e, false, []⟩
  | Except.ok st =>
      ⟨setFS fs path { store with values := st.committed ++ st.staged },
       none, true, st.trace ++ [Event.flush]⟩

/-- The composite natural key of a value row. -/
def keyOf (r : ValueRow) : String × String × String :=
  (r.site_code, r.variable_code, r.datetime)

/-- Some committed row matches the where-clause key. -/
def hasMatch (rows : List ValueRow) (sc vc dt : String) : Bool :=
  rows.any (matchesWhere sc vc dt)

/-- At most one row per composite key. -/
def uniqueKeysB : List ValueRow → Bool
  | [] => true
  | r :: rest => rest.all (fun x => keyOf x != keyOf r) && uniqueKeysB rest

/-- Pairwise-distinct keys. -/
def distinctKeys : List (String × String × String) → Bool
  | [] => true
  | k :: ks => ks.all (fun x => x != k) && distinctKeys ks

/-- The composite keys of one batch of incoming site data, in input
order. -/
def batchKeys (sc : String) : List DataGroup → List (String × String × String)
  | [] => []
  | g :: gs => g.values.map (fun v => (sc, g.varCtx.code, v.datetime)) ++ batchKeys sc gs

/-- The composite keys of the values of a batch that have no matching
row among `rows`, in input order (these are the ones the synchronizer
defers and appends). -/
def deferredKeys (sc : String) (rows : List ValueRow) : List DataGroup →
    List (String × String × String)
  | [] => []
  | g :: gs =>
      (g.values.filter (fun v => !(hasMatch rows sc g.varCtx.code v.datetime))).map
        (fun v => (sc, g.varCtx.code, v.datetime))
      ++ deferredKeys sc rows gs

/-- Scan events. -/
def isScanEvent : Event → Bool
  | Event.scan _ _ _ => true
  | _ => false

/-- Append events. -/
def isAppendEvent : Event → Bool
  | Event.append _ _ => true
  | _ => false

/-! ## Characterization of the update helpers -/

theorem update_row_with_value_stat (r : ValueRow) (uv : UpdValue) (sc sn vc vn a b : String) :
    update_row_with_value r uv (value_variable sc sn ⟨vc, vn, some (a, b)⟩)
      = ⟨uv.datetime, uv.qualifiers, uv.value, sc, sn, vc, vn, a, b⟩ := rfl

theorem update_row_with_value_no_stat (r : ValueRow) (uv : UpdValue) (sc sn vc vn : String) :
    update_row_with_value r uv (value_variable sc sn ⟨vc, vn, none⟩)
      = ⟨uv.datetime, uv.qualifiers, uv.value, sc, sn, vc, vn,
         r.variable_statistic_code, r.variable_statistic_name⟩ := rfl

/-- Writing a value merged with the foreign attributes always sets the
three key columns to the searched key, whatever the previous row
content and whether or not the variable has a statistic. -/
theorem keyOf_update_row (r : ValueRow) (uv : UpdValue) (sc sn : String) (v : VarCtx) :
    keyOf (update_row_with_value r uv (value_variable sc sn v)) = (sc, v.code, uv.datetime) := by
  obtain ⟨vc, vn, st⟩ := v
  cases st with
  | none => rfl
  | some p => obtain ⟨a, b⟩ := p; rfl

theorem matchesWhere_iff {sc vc dt : String} {r : ValueRow} :
    matchesWhere sc vc dt r = true ↔ keyOf r = (sc, vc, dt) := by
  simp [matchesWhere, keyOf, Prod.ext_iff, Bool.and_eq_true, and_assoc]

theorem keyOf_of_matches {sc vc dt : String} {r : ValueRow}
    (h : matchesWhere sc vc dt r = true) : keyOf r = (sc, vc, dt) :=
  matchesWhere_iff.1 h

theorem hasMatch_iff {rows : List ValueRow} {sc vc dt : String} :
    hasMatch rows sc vc dt = true ↔ (sc, vc, dt) ∈ rows.map keyOf := by
  simp only [hasMatch, List.any_eq_true, List.mem_map]
  constructor
  · rintro ⟨r, hr, hm⟩
    exact ⟨r, hr, matchesWhere_iff.1 hm⟩
  · rintro ⟨r, hr, hm⟩
    exact ⟨r, hr, matchesWhere_iff.2 hm⟩

theorem bool_eq_of_iff {a b : Bool} (h : a = true ↔ b = true) : a = b := by
  cases a <;> cases b <;> simp_all

theorem hasMatch_congr {rows1 rows2 : List ValueRow}
    (h : rows1.map keyOf = rows2.map keyOf) (sc vc dt : String) :
    hasMatch rows1 sc vc dt = hasMatch rows2 sc vc dt := by
  apply bool_eq_of_iff
  rw [hasMatch_iff, hasMatch_iff, h]

theorem updateFirstMatch_isSome (sc vc : String) (uv : UpdValue) (vv : List (String × String)) :
    ∀ rows : List ValueRow,
      (updateFirstMatch sc vc uv vv rows).isSome = hasMatch rows sc vc uv.datetime := by
  intro rows
  induction rows with
  | nil => rfl
  | cons r rs ih =>
    by_cases hm : matchesWhere sc vc uv.datetime r = true
    · simp [updateFirstMatch, hasMatch, hm]
    · rw [Bool.not_eq_true] at hm
      simp [updateFirstMatch, hasMatch, hm, Option.isSome_map]
      rw [← hasMatch]
      exact ih

theorem updateFirstMatch_some_keys {sc vc : String} {uv : UpdValue}
    {vv : List (String × String)}
    (hvv : ∀ r, keyOf (update_row_with_value r uv vv) = (sc, vc, uv.datetime)) :
    ∀ {rows rows1 : List ValueRow}, updateFirstMatch sc vc uv vv rows = some rows1 →
      rows1.map keyOf = rows.map keyOf := by
  intro rows
  induction rows with
  | nil => intro rows1 h; simp [updateFirstMatch] at h
  | cons r rs ih =>
    intro rows1 h
    by_cases hm : matchesWhere sc vc uv.datetime r = true
    · simp only [updateFirstMatch, hm, if_true] at h
      have h1 : update_row_with_value r uv vv :: rs = rows1 := by
        injection h
      rw [← h1]
      simp only [List.map_cons, hvv r, keyOf_of_matches hm]
    · rw [Bool.not_eq_true] at hm
      simp only [updateFirstMatch, hm, Bool.false_eq_true, if_false,
        Option.map_eq_some'] at h
      rcases h with ⟨rs1, hrs1, hcons⟩
      rw [← hcons]
      simp only [List.map_cons, ih hrs1]

/-! ## Characterization of the two passes -/

/-- The 0-based positions, within a group's value list, of the values
that have no matching row among `rows`. -/
def deferredPos (sc vc : String) (rows : List ValueRow) : List UpdValue → List Nat
  | [] => []
  | v :: vs =>
      if hasMatch rows sc vc v.datetime then
        (deferredPos sc vc rows vs).map (fun j => j + 1)
      else
        0 :: (deferredPos sc vc rows vs).map (fun j => j + 1)

theorem deferredPos_congr {sc vc : String} {rows1 rows2 : List ValueRow}
    (h : rows1.map keyOf = rows2.map keyOf) :
    ∀ values, deferredPos sc vc rows1 values = deferredPos sc vc rows2 values := by
  intro values
  induction values with
  | nil => rfl
  | cons v vs ih =>
    simp only [deferredPos, hasMatch_congr h, ih]

theorem phase1_keys {sc vc : String} {vv : List (String × String)}
    (hvv : ∀ r uv, keyOf (update_row_with_value r uv vv) = (sc, vc, uv.datetime)) :
    ∀ (values : List UpdValue) (rows : List ValueRow) (i : Nat),
      ((phase1 sc vc vv rows i values).1).map keyOf = rows.map keyOf := by
  intro values
  induction values with
  | nil => intro rows i; rfl
  | cons v vs ih =>
    intro rows i
    cases h : updateFirstMatch sc vc v vv rows with
    | some rows1 =>
      simp only [phase1, h]
      rw [ih rows1 (i + 1), updateFirstMatch_some_keys (fun r => hvv r v) h]
    | none =>
      simp only [phase1, h]
      exact ih rows (i + 1)

theorem phase1_idxs {sc vc : String} {vv : List (String × String)}
    (hvv : ∀ r uv, keyOf (update_row_with_value r uv vv) = (sc, vc, uv.datetime)) :
    ∀ (values : List UpdValue) (rows : List ValueRow) (i : Nat),
      (phase1 sc vc vv rows i values).2.1
        = (deferredPos sc vc rows values).map (fun j => j + i) := by
  intro values
  induction values with
  | nil => intro rows i; rfl
  | cons v vs ih =>
    intro rows i
    cases h : updateFirstMatch sc vc v vv rows with
    | some rows1 =>
      have hmatch : hasMatch rows sc vc v.datetime = true := by
        rw [← updateFirstMatch_isSome sc vc v vv rows, h]
        rfl
      simp only [phase1, h, deferredPos, hmatch, if_true]
      rw [ih rows1 (i + 1),
        deferredPos_congr (updateFirstMatch_some_keys (fun r => hvv r v) h) vs,
        List.map_map]
      apply List.map_congr_left
      intro j _
      simp only [Function.comp_apply]
      omega
    | none =>
      have hmatch : hasMatch rows sc vc v.datetime = false := by
        rw [← updateFirstMatch_isSome sc vc v vv rows, h]
        rfl
      simp only [phase1, h, deferredPos, hmatch, Bool.false_eq_true, if_false]
      rw [ih rows (i + 1)]
      simp only [List.map_cons, List.map_map]
      refine congrArg₂ _ (by omega) ?_
      apply List.map_congr_left
      intro j _
      simp only [Function.comp_apply]
      omega

theorem deferredPos_getD (sc vc : String) (rows : List ValueRow) :
    ∀ values : List UpdValue,
      (deferredPos sc vc rows values).map (fun j => values.getD j ⟨"", "", ""⟩)
        = values.filter (fun v => !(hasMatch rows sc vc v.datetime)) := by
  intro values
  induction values with
  | nil => rfl
  | cons v vs ih =>
    cases h : hasMatch rows sc vc v.datetime with
    | true =>
      simp only [deferredPos, h, if_true, List.map_map, List.filter_cons, Bool.not_true,
        Bool.false_eq_true, if_false]
      rw [← ih]
      apply List.map_congr_left
      intro j _
      rfl
    | false =>
      simp only [deferredPos, h, Bool.false_eq_true, if_false, List.map_cons, List.map_map,
        List.filter_cons, Bool.not_false, if_true, List.getD_cons_zero]
      rw [← ih]
      refine congrArg _ ?_
      apply List.map_congr_left
      intro j _
      rfl

theorem phase2_rows_keys {vc sc : String} {vv : List (String × String)}
    (values : List UpdValue)
    (hvv : ∀ r uv, keyOf (update_row_with_value r uv vv) = (sc, vc, uv.datetime)) :
    ∀ (idxs : List Nat) (buf : ValueRow),
      ((phase2 vc vv values buf idxs).2.1).map keyOf
        = idxs.map (fun j => (sc, vc, (values.getD j ⟨"", "", ""⟩).datetime)) := by
  intro idxs
  induction idxs with
  | nil => intro buf; rfl
  | cons i rest ih =>
    intro buf
    simp only [phase2, List.map_cons]
    rw [ih, hvv]

theorem phase1_trace_no_append {sc vc : String} {vv : List (String × String)} :
    ∀ (values : List UpdValue) (rows : List ValueRow) (i : Nat),
      ∀ e ∈ (phase1 sc vc vv rows i values).2.2, isAppendEvent e = false := by
  intro values
  induction values with
  | nil => intro rows i e he; simp [phase1] at he
  | cons v vs ih =>
    intro rows i e he
    cases h : updateFirstMatch sc vc v vv rows with
    | some rows1 =>
      simp only [phase1, h, List.mem_cons] at he
      rcases he with rfl | rfl | he
      · rfl
      · rfl
      · exact ih rows1 (i + 1) e he
    | none =>
      simp only [phase1, h, List.mem_cons] at he
      rcases he with rfl | he
      · rfl
      · exact ih rows (i + 1) e he

theorem phase2_trace_append {vc : String} {vv : List (String × String)}
    {values : List UpdValue} :
    ∀ (idxs : List Nat) (buf : ValueRow),
      ∀ e ∈ (phase2 vc vv values buf idxs).2.2,
        isAppendEvent e = true ∧ isScanEvent e = false := by
  intro idxs
  induction idxs with
  | nil => intro buf e he; simp [phase2] at he
  | cons i rest ih =>
    intro buf e he
    simp only [phase2, List.mem_cons] at he
    rcases he with rfl | he
    · exact ⟨rfl, rfl⟩
    · exact ih _ e he

/-! ## Group-level and call-level characterization -/

theorem processGroup_committed_keys (sc sn : String) (g : DataGroup) (st : SyncState) :
    (processGroup sc sn g st).committed.map keyOf = st.committed.map keyOf := by
  have hvv : ∀ r uv, keyOf (update_row_with_value r uv (value_variable sc sn g.varCtx))
      = (sc, g.varCtx.code, uv.datetime) := fun r uv => keyOf_update_row r uv sc sn g.varCtx
  simp only [processGroup]
  exact phase1_keys hvv g.values st.committed 0

theorem processGroup_staged_keys (sc sn : String) (g : DataGroup) (st : SyncState) :
    (processGroup sc sn g st).staged.map keyOf
      = st.staged.map keyOf
        ++ (g.values.filter (fun v => !(hasMatch st.committed sc g.varCtx.code v.datetime))).map
            (fun v => (sc, g.varCtx.code, v.datetime)) := by
  have hvv : ∀ r uv, keyOf (update_row_with_value r uv (value_variable sc sn g.varCtx))
      = (sc, g.varCtx.code, uv.datetime) := fun r uv => keyOf_update_row r uv sc sn g.varCtx
  simp only [processGroup, List.map_append]
  congr 1
  rw [phase2_rows_keys g.values hvv, phase1_idxs hvv]
  have h0 : (deferredPos sc g.varCtx.code st.committed g.values).map (fun j => j + 0)
      = deferredPos sc g.varCtx.code st.committed g.values := by
    simp
  rw [h0, ← deferredPos_getD sc g.varCtx.code st.committed g.values, List.map_map]
  apply List.map_congr_left
  intro j _
  rfl

theorem processGroup_trace (sc sn : String) (g : DataGroup) (st : SyncState) :
    ∃ evs1 evs2, (processGroup sc sn g st).trace = st.trace ++ evs1 ++ evs2
      ∧ (∀ e ∈ evs1, isAppendEvent e = false)
      ∧ (∀ e ∈ evs2, isAppendEvent e = true ∧ isScanEvent e = false) := by
  refine ⟨_, _, rfl, ?_, ?_⟩
  · exact phase1_trace_no_append g.values st.committed 0
  · exact phase2_trace_append _ _

theorem deferredKeys_congr {sc : String} {rows1 rows2 : List ValueRow}
    (h : rows1.map keyOf = rows2.map keyOf) :
    ∀ groups, deferredKeys sc rows1 groups = deferredKeys sc rows2 groups := by
  intro groups
  induction groups with
  | nil => rfl
  | cons g gs ih =>
    have hp : (fun (v : UpdValue) => !(hasMatch rows1 sc g.varCtx.code v.datetime))
        = (fun (v : UpdValue) => !(hasMatch rows2 sc g.varCtx.code v.datetime)) := by
      funext v
      rw [hasMatch_congr h]
    simp only [deferredKeys, ih, hp]

theorem runGroups_spec (s : NVal) :
    ∀ (groups : List DataGroup) (st : SyncState),
      ∃ st1, runGroups (some s) groups st = Except.ok st1
        ∧ st1.committed.map keyOf = st.committed.map keyOf
        ∧ st1.staged.map keyOf
            = st.staged.map keyOf ++ deferredKeys (dGetStr s "code") st.committed groups
        ∧ ∃ evs, st1.trace = st.trace ++ evs := by
  intro groups
  induction groups with
  | nil =>
    intro st
    exact ⟨st, rfl, rfl, by simp [deferredKeys], ⟨[], by simp⟩⟩
  | cons g gs ih =>
    intro st
    obtain ⟨st1, hrun, hcomm, hstag, evs, hte⟩ :=
      ih (processGroup (dGetStr s "code") (dGetStr s "network") g st)
    refine ⟨st1, ?_, ?_, ?_, ?_⟩
    · simp only [runGroups]
      exact hrun
    · rw [hcomm, processGroup_committed_keys]
    · rw [hstag, processGroup_staged_keys,
        deferredKeys_congr
          (processGroup_committed_keys (dGetStr s "code") (dGetStr s "network") g st) gs]
      simp only [deferredKeys, List.append_assoc]
    · obtain ⟨e1, e2, hpt, -, -⟩ :=
        processGroup_trace (dGetStr s "code") (dGetStr s "network") g st
      rw [hte, hpt]
      exact ⟨e1 ++ e2 ++ evs, by simp [List.append_assoc]⟩

theorem setFS_get_same (fs : FS) (p : String) (st : Store) : setFS fs p st p = st := by
  simp [setFS]

theorem setFS_get_other {q p : String} (fs : FS) (h : q ≠ p) (st : Store) :
    setFS fs p st q = fs q := by
  simp [setFS, h]

/-- The full effect of a successful `update_site_data` call on the
composite keys of the values table: committed rows keep their keys, and
the keys of the values with no match against the committed rows at the
start of the call are appended, in input order; other paths and the
sites table are untouched. -/
theorem update_site_data_spec (fs : FS) (site_code path : String)
    (site_data : List DataGroup) (s : NVal)
    (hsite : get_site fs site_code HDF5_FILE_PATH = some s) :
    (update_site_data fs site_code site_data path).err = none
    ∧ (update_site_data fs site_code site_data path).closed = true
    ∧ ((update_site_data fs site_code site_data path).result path).values.map keyOf
        = (fs path).values.map keyOf
          ++ deferredKeys (dGetStr s "code") (fs path).values site_data
    ∧ ((update_site_data fs site_code site_data path).result path).sites = (fs path).sites
    ∧ ∀ q, q ≠ path → (update_site_data fs site_code site_data path).result q = fs q := by
  obtain ⟨st1, hrun, hcomm, hstag, -⟩ :=
    runGroups_spec s site_data ⟨(fs path).values, [], defaultValueRow, []⟩
  simp only [update_site_data, hsite, hrun]
  refine ⟨trivial, trivial, ?_, ?_, ?_⟩
  · rw [setFS_get_same]
    show (st1.committed ++ st1.staged).map keyOf = _
    rw [List.map_append, hcomm, hstag]
    simp
  · rw [setFS_get_same]
  · intro q hq
    exact setFS_get_other fs hq _

/-! ## Distinctness bridges -/

theorem uniqueKeysB_iff : ∀ rows : List ValueRow,
    uniqueKeysB rows = true ↔ (rows.map keyOf).Pairwise (fun a b => b ≠ a) := by
  intro rows
  induction rows with
  | nil => simp [uniqueKeysB]
  | cons r rest ih =>
    simp only [uniqueKeysB, Bool.and_eq_true, List.all_eq_true, List.map_cons,
      List.pairwise_cons, ih, bne_iff_ne, ne_eq, List.mem_map]
    constructor
    · rintro ⟨h1, h2⟩
      refine ⟨?_, h2⟩
      rintro b ⟨x, hx, rfl⟩
      exact h1 x hx
    · rintro ⟨h1, h2⟩
      exact ⟨fun x hx => h1 (keyOf x) ⟨x, hx, rfl⟩, h2⟩

theorem distinctKeys_iff : ∀ ks : List (String × String × String),
    distinctKeys ks = true ↔ ks.Pairwise (fun a b => b ≠ a) := by
  intro ks
  induction ks with
  | nil => simp [distinctKeys]
  | cons k rest ih =>
    simp only [distinctKeys, Bool.and_eq_true, List.all_eq_true, List.pairwise_cons, ih,
      bne_iff_ne, ne_eq]

theorem hasMatch_eq_decide (rows : List ValueRow) (sc vc dt : String) :
    hasMatch rows sc vc dt = decide ((sc, vc, dt) ∈ rows.map keyOf) := by
  apply bool_eq_of_iff
  rw [hasMatch_iff, decide_eq_true_iff]

theorem filter_map_key (sc vc : String) (rows : List ValueRow) :
    ∀ values : List UpdValue,
      (values.filter (fun v => !(hasMatch rows sc vc v.datetime))).map
          (fun v => (sc, vc, v.datetime))
        = (values.map (fun v => (sc, vc, v.datetime))).filter
            (fun k => !(decide (k ∈ rows.map keyOf))) := by
  intro values
  induction values with
  | nil => rfl
  | cons v vs ih =>
    have hd : decide ((sc, vc, v.datetime) ∈ rows.map keyOf)
        = hasMatch rows sc vc v.datetime :=
      (hasMatch_eq_decide rows sc vc v.datetime).symm
    cases h : hasMatch rows sc vc v.datetime with
    | true =>
      rw [h] at hd
      simp only [List.map_cons, List.filter_cons, h, hd, Bool.not_true, Bool.false_eq_true,
        if_false, ih]
    | false =>
      rw [h] at hd
      simp only [List.map_cons, List.filter_cons, h, hd, Bool.not_false, if_true, ih]

theorem deferredKeys_eq_filter (sc : String) (rows : List ValueRow) :
    ∀ groups, deferredKeys sc rows groups
      = (batchKeys sc groups).filter (fun k => !(decide (k ∈ rows.map keyOf))) := by
  intro groups
  induction groups with
  | nil => rfl
  | cons g gs ih =>
    simp only [deferredKeys, batchKeys, List.filter_append, ih]
    rw [filter_map_key]

theorem pairwise_append_of_disjoint {A B : List (String × String × String)}
    (hA : A.Pairwise (fun a b => b ≠ a)) (hB : B.Pairwise (fun a b => b ≠ a))
    (hdisj : ∀ k ∈ B, k ∉ A) :
    (A ++ B).Pairwise (fun a b => b ≠ a) := by
  rw [List.pairwise_append]
  exact ⟨hA, hB, fun a ha b hb he => hdisj b hb (he ▸ ha)⟩

/-! ## Trace position helper -/

/-! ## Concrete fixtures -/

/-- A site row for site "S1" on network "N1". -/
def siteRowEx : SiteRow := { defaultSiteRow with code := "S1", network := "N1" }

/-- A store holding the one site "S1" and no values. -/
def storeEx : Store := { sites := [siteRowEx], values := [] }

/-- A file system with `storeEx` at every path. -/
def fsEx : FS := fun _ => storeEx

/-- A file system with empty stores everywhere. -/
def fsEmpty : FS := fun _ => { sites := [], values := [] }

/-- The nested site dict that `get_site` returns for "S1" on `fsEx`. -/
def siteDictEx : NVal := row_to_dict USGSSite (siteRowToRList siteRowEx)

/-- A batch group holding the same incoming value twice. -/
def dupGroup : DataGroup :=
  ⟨⟨"00060", "NWIS", none⟩,
   [⟨"2020-01-01T00:00:00", "A", "12.3"⟩, ⟨"2020-01-01T00:00:00", "A", "12.3"⟩]⟩

/-- A one-value group for variable "00060". -/
def groupA : DataGroup := ⟨⟨"00060", "NWIS", none⟩, [⟨"T1", "", "1"⟩]⟩

/-- A one-value group for variable "00065". -/
def groupB : DataGroup := ⟨⟨"00065", "NWIS", none⟩, [⟨"T2", "", "2"⟩]⟩

/-- A value row with key ("S1", "00060", "T1"). -/
def rowK : ValueRow := ⟨"T1", "q", "1", "S1", "N1", "00060", "NWIS", "", ""⟩

/-- A value row with a different datetime. -/
def rowOther : ValueRow := ⟨"T9", "q", "9", "S1", "N1", "00060", "NWIS", "", ""⟩

/-- A store with site "S1" and two value rows with distinct keys. -/
def storeEx2 : Store := { sites := [siteRowEx], values := [rowOther, rowK] }

/-- A file system with `storeEx2` at every path. -/
def fsEx2 : FS := fun _ => storeEx2

/-- The variable context of an identical re-sync of `rowK`. -/
def reVar : VarCtx := ⟨"00060", "NWIS", none⟩

/-- An incoming value at `rowK`'s composite key with a fresh reading. -/
def reVal : UpdValue := ⟨"T1", "A", "12.5"⟩

/-- A one-value re-sync batch at `rowK`'s key. -/
def reGroup : DataGroup := ⟨reVar, [reVal]⟩

theorem scan_before_append_helper {evs1 rest : List Event}
    (h1 : ∀ e ∈ evs1, isAppendEvent e = false)
    (h2 : ∀ e ∈ rest, isScanEvent e = false) :
    ∀ i j e1 e2, (evs1 ++ rest).get? i = some e1 → (evs1 ++ rest).get? j = some e2 →
      isScanEvent e1 = true → isAppendEvent e2 = true → i < j := by
  intro i j e1 e2 hi hj hscan happ
  have hjlen : evs1.length ≤ j := by
    by_contra hlt
    push_neg at hlt
    rw [List.get?_append hlt] at hj
    have hfalse := h1 e2 (List.get?_mem hj)
    simp [hfalse] at happ
  have hilen : i < evs1.length := by
    by_contra hge
    push_neg at hge
    rw [List.get?_append_right hge] at hi
    have hfalse := h2 e1 (List.get?_mem hi)
    simp [hfalse] at hscan
  omega

/-- Splitting form of the first-match update: with a non-matching scan
prefix and `r` the first matching row, only `r` is updated. -/
theorem updateFirstMatch_split (sc vc : String) (uv : UpdValue)
    (vv : List (String × String)) (rows1 rows2 : List ValueRow) (r : ValueRow)
    (hpre : ∀ x ∈ rows1, matchesWhere sc vc uv.datetime x = false)
    (hr : matchesWhere sc vc uv.datetime r = true) :
    updateFirstMatch sc vc uv vv (rows1 ++ r :: rows2)
      = some (rows1 ++ update_row_with_value r uv vv :: rows2) := by
  induction rows1 with
  | nil => simp [updateFirstMatch, hr]
  | cons x xs ih =>
    have hx : matchesWhere sc vc uv.datetime x = false := hpre x (List.mem_cons_self x xs)
    simp only [List.cons_append, updateFirstMatch, hx, Bool.false_eq_true, if_false]
    rw [List.append_eq, ih (fun y hy => hpre y (List.mem_cons_of_mem x hy))]
    rfl

/-- Every column of a row written by `_update_row_with_value` reflects
the incoming value merged with the foreign attributes. -/
theorem update_row_with_value_fields (r : ValueRow) (uv : UpdValue) (sc sn : String)
    (v : VarCtx) :
    (update_row_with_value r uv (value_variable sc sn v)).datetime = uv.datetime
    ∧ (update_row_with_value r uv (value_variable sc sn v)).qualifiers = uv.qualifiers
    ∧ (update_row_with_value r uv (value_variable sc sn v)).value = uv.value
    ∧ (update_row_with_value r uv (value_variable sc sn v)).site_code = sc
    ∧ (update_row_with_value r uv (value_variable sc sn v)).site_network = sn
    ∧ (update_row_with_value r uv (value_variable sc sn v)).variable_code = v.code
    ∧ (update_row_with_value r uv (value_variable sc sn v)).variable_network = v.network := by
  obtain ⟨c, n, st⟩ := v
  cases st with
  | none => exact ⟨rfl, rfl, rfl, rfl, rfl, rfl, rfl⟩
  | some p =>
    obtain ⟨a, b⟩ := p
    exact ⟨rfl, rfl, rfl, rfl, rfl, rfl, rfl⟩

/-- A call whose batch is one value whose where-clause finds a match:
the values table becomes exactly the result of the first-match update —
nothing is appended. -/
theorem update_site_data_single_value_match (fs : FS) (site_code path : String) (s : NVal)
    (vctx : VarCtx) (uv : UpdValue) (rows' : List ValueRow)
    (hsite : get_site fs site_code HDF5_FILE_PATH = some s)
    (hufm : updateFirstMatch (dGetStr s "code") vctx.code uv
        (value_variable (dGetStr s "code") (dGetStr s "network") vctx) ((fs path).values)
      = some rows') :
    ((update_site_data fs site_code [⟨vctx, [uv]⟩] path).result path).values = rows' := by
  simp only [update_site_data, hsite, runGroups, processGroup, phase1, hufm, phase2,
    setFS_get_same, List.append_nil, List.nil_append]

/-- The trace of a completed multi-group run decomposes into one segment
per group, each segment holding all of its non-append events before all
of its append events. -/
theorem runGroups_trace_segments (s : NVal) :
    ∀ (groups : List DataGroup) (st st1 : SyncState),
      runGroups (some s) groups st = Except.ok st1 →
      ∃ segs : List (List Event × List Event),
        segs.length = groups.length
        ∧ st1.trace = st.trace ++ (segs.map (fun p => p.1 ++ p.2)).flatten
        ∧ ∀ p ∈ segs, (∀ e ∈ p.1, isAppendEvent e = false)
            ∧ (∀ e ∈ p.2, isAppendEvent e = true ∧ isScanEvent e = false) := by
  intro groups
  induction groups with
  | nil =>
    intro st st1 h
    simp only [runGroups] at h
    have hst : st = st1 := Except.ok.inj h
    subst hst
    exact ⟨[], rfl, by simp, by simp⟩
  | cons g gs ih =>
    intro st st1 h
    simp only [runGroups] at h
    obtain ⟨segs, hlen, htr, hprops⟩ :=
      ih (processGroup (dGetStr s "code") (dGetStr s "network") g st) st1 h
    obtain ⟨evs1, evs2, hpt, h1, h2⟩ :=
      processGroup_trace (dGetStr s "code") (dGetStr s "network") g st
    refine ⟨(evs1, evs2) :: segs, by simp [hlen], ?_, ?_⟩
    · rw [htr, hpt]
      simp [List.append_assoc]
    · intro p hp
      rcases List.mem_cons.1 hp with rfl | hp2
      · exact ⟨h1, h2⟩
      · exact hprops p hp2

/-! ## Claims -/

/-- C1 counterexample: starting from a store satisfying the at-most-one-
row-per-key invariant (it is empty), a single `update_site_data` call
whose batch holds the same value twice under one composite key leaves
two rows with that key — both values miss the scan and are both
appended. -/
theorem c1_counterexample :
    uniqueKeysB (fsEx "p").values = true
    ∧ (((update_site_data fsEx "S1" [dupGroup] "p").result) "p").values.map keyOf
        = [("S1", "00060", "2020-01-01T00:00:00"), ("S1", "00060", "2020-01-01T00:00:00")]
    ∧ uniqueKeysB (((update_site_data fsEx "S1" [dupGroup] "p").result) "p").values
        = false := by
  refine ⟨by decide, by decide, by decide⟩

/-- C1 (amended): a completed `update_site_data` call on a store with
at most one row per composite key again leaves at most one row per key
provided no two incoming values of the batch share a composite key
(without the proviso, two same-key incoming values that both miss the
store are both appended — see the counterexample); and when an incoming
value's key matches the store's unique row for that key, that row is
updated in place — the table keeps the same rows with only the matched
row replaced — so re-syncing a value at an existing key leaves exactly
one row for that key, whose fields equal the latest input merged with
the denormalized foreign attributes. -/
theorem c1_unique_keys_amended (fs : FS) (site_code path : String)
    (site_data : List DataGroup) (s : NVal) (vctx : VarCtx) (uv : UpdValue)
    (rows1 rows2 : List ValueRow) (r : ValueRow)
    (hsite : get_site fs site_code HDF5_FILE_PATH = some s) :
    (uniqueKeysB (fs path).values = true →
      distinctKeys (batchKeys (dGetStr s "code") site_data) = true →
      uniqueKeysB (((update_site_data fs site_code site_data path).result) path).values
        = true)
    ∧ ((fs path).values = rows1 ++ r :: rows2 →
      (∀ x ∈ rows1, keyOf x ≠ (dGetStr s "code", vctx.code, uv.datetime)) →
      keyOf r = (dGetStr s "code", vctx.code, uv.datetime) →
      (∀ x ∈ rows2, keyOf x ≠ (dGetStr s "code", vctx.code, uv.datetime)) →
      ((update_site_data fs site_code [⟨vctx, [uv]⟩] path).result path).values
          = rows1 ++ update_row_with_value r uv
              (value_variable (dGetStr s "code") (dGetStr s "network") vctx) :: rows2
      ∧ (((update_site_data fs site_code [⟨vctx, [uv]⟩] path).result path).values.filter
            (fun x => decide (keyOf x = (dGetStr s "code", vctx.code, uv.datetime)))).length
          = 1
      ∧ (update_row_with_value r uv
            (value_variable (dGetStr s "code") (dGetStr s "network") vctx)).datetime
          = uv.datetime
      ∧ (update_row_with_value r uv
            (value_variable (dGetStr s "code") (dGetStr s "network") vctx)).qualifiers
          = uv.qualifiers
      ∧ (update_row_with_value r uv
            (value_variable (dGetStr s "code") (dGetStr s "network") vctx)).value
          = uv.value
      ∧ (update_row_with_value r uv
            (value_variable (dGetStr s "code") (dGetStr s "network") vctx)).site_code
          = dGetStr s "code"
      ∧ (update_row_with_value r uv
            (value_variable (dGetStr s "code") (dGetStr s "network") vctx)).variable_code
          = vctx.code) := by
  constructor
  · intro hinit hbatch
    obtain ⟨-, -, hkeys, -, -⟩ := update_site_data_spec fs site_code path site_data s hsite
    rw [uniqueKeysB_iff, hkeys]
    apply pairwise_append_of_disjoint
    · exact (uniqueKeysB_iff _).1 hinit
    · rw [deferredKeys_eq_filter]
      exact List.Pairwise.sublist (List.filter_sublist _) ((distinctKeys_iff _).1 hbatch)
    · intro k hk
      rw [deferredKeys_eq_filter] at hk
      have hpred := (List.mem_filter.1 hk).2
      simpa using hpred
  · intro hvals h1 hK h2
    have hmr : matchesWhere (dGetStr s "code") vctx.code uv.datetime r = true :=
      matchesWhere_iff.2 hK
    have hm1 : ∀ x ∈ rows1,
        matchesWhere (dGetStr s "code") vctx.code uv.datetime x = false := by
      intro x hx
      cases hmw : matchesWhere (dGetStr s "code") vctx.code uv.datetime x with
      | false => rfl
      | true => exact absurd (matchesWhere_iff.1 hmw) (h1 x hx)
    have hufm : updateFirstMatch (dGetStr s "code") vctx.code uv
        (value_variable (dGetStr s "code") (dGetStr s "network") vctx) ((fs path).values)
        = some (rows1 ++ update_row_with_value r uv
            (value_variable (dGetStr s "code") (dGetStr s "network") vctx) :: rows2) := by
      rw [hvals]
      exact updateFirstMatch_split _ _ _ _ rows1 rows2 r hm1 hmr
    have hfinal := update_site_data_single_value_match fs site_code path s vctx uv _
      hsite hufm
    have hkey_upd : keyOf (update_row_with_value r uv
        (value_variable (dGetStr s "code") (dGetStr s "network") vctx))
        = (dGetStr s "code", vctx.code, uv.datetime) :=
      keyOf_update_row r uv (dGetStr s "code") (dGetStr s "network") vctx
    obtain ⟨hf1, hf2, hf3, hf4, hf5, hf6, hf7⟩ :=
      update_row_with_value_fields r uv (dGetStr s "code") (dGetStr s "network") vctx
    refine ⟨hfinal, ?_, hf1, hf2, hf3, hf4, hf6⟩
    rw [hfinal, List.filter_append, List.filter_cons]
    have hnil1 : rows1.filter
        (fun x => decide (keyOf x = (dGetStr s "code", vctx.code, uv.datetime))) = [] := by
      rw [List.filter_eq_nil_iff]
      intro x hx
      simpa using h1 x hx
    have hnil2 : rows2.filter
        (fun x => decide (keyOf x = (dGetStr s "code", vctx.code, uv.datetime))) = [] := by
      rw [List.filter_eq_nil_iff]
      intro x hx
      simpa using h2 x hx
    simp [hnil1, hnil2, hkey_upd]

/-- Witness for the amended C1: a store holding a distinct-key row and
the unique row for the key, re-synced with a fresh reading at that key —
the matched row is updated in place and exactly one row for the key
remains, carrying the latest input. -/
theorem c1_unique_keys_amended_witness :
    get_site fsEx2 "S1" HDF5_FILE_PATH = some siteDictEx
    ∧ uniqueKeysB (fsEx2 "p").values = true
    ∧ distinctKeys (batchKeys (dGetStr siteDictEx "code") [reGroup]) = true
    ∧ (fsEx2 "p").values = [rowOther] ++ rowK :: []
    ∧ (∀ x ∈ [rowOther],
        keyOf x ≠ (dGetStr siteDictEx "code", reVar.code, reVal.datetime))
    ∧ keyOf rowK = (dGetStr siteDictEx "code", reVar.code, reVal.datetime)
    ∧ (∀ x ∈ ([] : List ValueRow),
        keyOf x ≠ (dGetStr siteDictEx "code", reVar.code, reVal.datetime))
    ∧ uniqueKeysB (((update_site_data fsEx2 "S1" [reGroup] "p").result) "p").values = true
    ∧ (((update_site_data fsEx2 "S1" [⟨reVar, [reVal]⟩] "p").result "p").values
          = [rowOther] ++ update_row_with_value rowK reVal
              (value_variable (dGetStr siteDictEx "code") (dGetStr siteDictEx "network")
                reVar) :: []
      ∧ (((update_site_data fsEx2 "S1" [⟨reVar, [reVal]⟩] "p").result "p").values.filter
            (fun x => decide
              (keyOf x = (dGetStr siteDictEx "code", reVar.code, reVal.datetime)))).length
          = 1
      ∧ (update_row_with_value rowK reVal
            (value_variable (dGetStr siteDictEx "code") (dGetStr siteDictEx "network")
              reVar)).datetime = reVal.datetime
      ∧ (update_row_with_value rowK reVal
            (value_variable (dGetStr siteDictEx "code") (dGetStr siteDictEx "network")
              reVar)).qualifiers = reVal.qualifiers
      ∧ (update_row_with_value rowK reVal
            (value_variable (dGetStr siteDictEx "code") (dGetStr siteDictEx "network")
              reVar)).value = reVal.value
      ∧ (update_row_with_value rowK reVal
            (value_variable (dGetStr siteDictEx "code") (dGetStr siteDictEx "network")
              reVar)).site_code = dGetStr siteDictEx "code"
      ∧ (update_row_with_value rowK reVal
            (value_variable (dGetStr siteDictEx "code") (dGetStr siteDictEx "network")
              reVar)).variable_code = reVar.code) :=
  ⟨by decide, by decide, by decide, by decide, by decide, by decide, by decide,
    (c1_unique_keys_amended fsEx2 "S1" "p" [reGroup] siteDictEx reVar reVal
        [rowOther] [] rowK (by decide)).1 (by decide) (by decide),
    (c1_unique_keys_amended fsEx2 "S1" "p" [reGroup] siteDictEx reVar reVal
        [rowOther] [] rowK (by decide)).2 (by decide) (by decide) (by decide) (by decide)⟩

/-- C3 counterexample: appends are deferred per variable group, not per
call — with two groups the append for the first group's new value
(trace position 1) happens before the match-scan of the second group's
value (trace position 2). -/
theorem c3_counterexample :
    (update_site_data fsEx "S1" [groupA, groupB] "p").trace
      = [Event.scan "S1" "00060" "T1", Event.append "00060" "T1",
         Event.scan "S1" "00065" "T2", Event.append "00065" "T2", Event.flush]
    ∧ (update_site_data fsEx "S1" [groupA, groupB] "p").trace.get? 1
        = some (Event.append "00060" "T1")
    ∧ (update_site_data fsEx "S1" [groupA, groupB] "p").trace.get? 2
        = some (Event.scan "S1" "00065" "T2") := by
  refine ⟨by decide, by decide, by decide⟩

/-- C3 (amended): appends are deferred per variable group, not per
call: in a completed call over any batch, the trace decomposes into one
segment per variable group — each segment holding all of that group's
(non-append) match-scan and update events before all of its append
events, so no value of a group is appended before the last match-scan of
its own group — followed by the single flush; appends of an earlier
group do precede the scans of later groups (see the counterexample).
The deferred values are appended in original input order within and
across groups: the store afterwards holds the key-preserving updated
rows followed by exactly those incoming values whose key had no match in
the initial store, in input order.  For a single-group batch this gives
the original guarantee: no append precedes any scan of the call. -/
theorem c3_deferred_append_amended (fs : FS) (site_code path : String)
    (site_data : List DataGroup) (s : NVal)
    (hsite : get_site fs site_code HDF5_FILE_PATH = some s) :
    (((update_site_data fs site_code site_data path).result path).values.map keyOf
      = (fs path).values.map keyOf
        ++ deferredKeys (dGetStr s "code") (fs path).values site_data)
    ∧ (∃ segs : List (List Event × List Event),
        segs.length = site_data.length
        ∧ (update_site_data fs site_code site_data path).trace
            = (segs.map (fun p => p.1 ++ p.2)).flatten ++ [Event.flush]
        ∧ ∀ p ∈ segs, (∀ e ∈ p.1, isAppendEvent e = false)
            ∧ (∀ e ∈ p.2, isAppendEvent e = true ∧ isScanEvent e = false))
    ∧ ∀ g : DataGroup, site_data = [g] →
        ∀ i j e1 e2,
          (update_site_data fs site_code site_data path).trace.get? i = some e1 →
          (update_site_data fs site_code site_data path).trace.get? j = some e2 →
          isScanEvent e1 = true → isAppendEvent e2 = true → i < j := by
  obtain ⟨st1, hrun, hcomm, hstag, -⟩ :=
    runGroups_spec s site_data ⟨(fs path).values, [], defaultValueRow, []⟩
  refine ⟨?_, ?_, ?_⟩
  · obtain ⟨-, -, hkeys, -, -⟩ := update_site_data_spec fs site_code path site_data s hsite
    exact hkeys
  · obtain ⟨segs, hlen, htr, hprops⟩ :=
      runGroups_trace_segments s site_data ⟨(fs path).values, [], defaultValueRow, []⟩
        st1 hrun
    refine ⟨segs, hlen, ?_, hprops⟩
    simp only [update_site_data, hsite, hrun]
    rw [htr]
    simp
  · rintro g rfl
    obtain ⟨evs1, evs2, hpt, h1, h2⟩ :=
      processGroup_trace (dGetStr s "code") (dGetStr s "network") g
        ⟨(fs path).values, [], defaultValueRow, []⟩
    have htrace : (update_site_data fs site_code [g] path).trace
        = evs1 ++ (evs2 ++ [Event.flush]) := by
      simp only [update_site_data, hsite, runGroups]
      rw [hpt]
      simp [List.append_assoc]
    have h2' : ∀ e ∈ evs2 ++ [Event.flush], isScanEvent e = false := by
      intro e he
      rcases List.mem_append.1 he with h | h
      · exact (h2 e h).2
      · simp only [List.mem_singleton] at h
        rw [h]
        rfl
    intro i j e1 e2 hi hj hs ha
    rw [htrace] at hi hj
    exact scan_before_append_helper h1 h2' i j e1 e2 hi hj hs ha

/-- Witness for the amended C3 at a concrete two-group call. -/
theorem c3_deferred_append_amended_witness :
    get_site fsEx "S1" HDF5_FILE_PATH = some siteDictEx
    ∧ ((((update_site_data fsEx "S1" [groupA, groupB] "p").result "p").values.map keyOf
        = (fsEx "p").values.map keyOf
          ++ deferredKeys (dGetStr siteDictEx "code") (fsEx "p").values [groupA, groupB])
      ∧ (∃ segs : List (List Event × List Event),
          segs.length = [groupA, groupB].length
          ∧ (update_site_data fsEx "S1" [groupA, groupB] "p").trace
              = (segs.map (fun p => p.1 ++ p.2)).flatten ++ [Event.flush]
          ∧ ∀ p ∈ segs, (∀ e ∈ p.1, isAppendEvent e = false)
              ∧ (∀ e ∈ p.2, isAppendEvent e = true ∧ isScanEvent e = false))
      ∧ ∀ g : DataGroup, [groupA, groupB] = [g] →
          ∀ i j e1 e2,
            (update_site_data fsEx "S1" [groupA, groupB] "p").trace.get? i = some e1 →
            (update_site_data fsEx "S1" [groupA, groupB] "p").trace.get? j = some e2 →
            isScanEvent e1 = true → isAppendEvent e2 = true → i < j) :=
  ⟨by decide,
    c3_deferred_append_amended fsEx "S1" "p" [groupA, groupB] siteDictEx (by decide)⟩

/-- C4: when the where-clause matches one or more stored rows — the scan
prefix `rows1` holds no match, row `r` is the first match, and `rows2`
behind it may hold further matches — the engine updates exactly the
first matched row with the incoming value's fields merged with the
foreign attributes, stops at the `break`, leaves every other row (in
particular every later matching row) unchanged, and reports no error. -/
theorem c4_first_match_update (sc vc : String) (uv : UpdValue)
    (vv : List (String × String)) (rows1 rows2 : List ValueRow) (r : ValueRow)
    (hpre : ∀ x ∈ rows1, matchesWhere sc vc uv.datetime x = false)
    (hr : matchesWhere sc vc uv.datetime r = true) :
    updateFirstMatch sc vc uv vv (rows1 ++ r :: rows2)
      = some (rows1 ++ update_row_with_value r uv vv :: rows2) := by
  induction rows1 with
  | nil => simp [updateFirstMatch, hr]
  | cons x xs ih =>
    have hx : matchesWhere sc vc uv.datetime x = false := hpre x (List.mem_cons_self x xs)
    simp only [List.cons_append, updateFirstMatch, hx, Bool.false_eq_true, if_false]
    rw [List.append_eq, ih (fun y hy => hpre y (List.mem_cons_of_mem x hy))]
    rfl

/-- Witness for C4: two matching rows exist (a duplicate sits behind the
first match); only the first is updated, the duplicate is returned
unchanged. -/
theorem c4_first_match_update_witness :
    (∀ x ∈ [rowOther], matchesWhere "S1" "00060" "T1" x = false)
    ∧ matchesWhere "S1" "00060" "T1" rowK = true
    ∧ updateFirstMatch "S1" "00060" ⟨"T1", "A", "2"⟩
        (value_variable "S1" "N1" ⟨"00060", "NWIS", none⟩) ([rowOther] ++ rowK :: [rowK])
      = some ([rowOther]
          ++ update_row_with_value rowK ⟨"T1", "A", "2"⟩
              (value_variable "S1" "N1" ⟨"00060", "NWIS", none⟩) :: [rowK]) :=
  ⟨by decide, by decide,
    c4_first_match_update "S1" "00060" ⟨"T1", "A", "2"⟩
      (value_variable "S1" "N1" ⟨"00060", "NWIS", none⟩) [rowOther] [rowK] rowK
      (by decide) (by decide)⟩

/-- C5: the second `USGSValue` class definition shadows the first, so
the schema in effect has the nested `site`, `variable` and
`variable.statistic` groups; none of the six flat denormalized columns
exists at the top level, so the `values.cols.<flat name>` index
creations of `init_h5` and the columns named by the `update_site_data`
where-clause and row assignments resolve to absent columns (only
`datetime`, `qualifiers` and `value` survive). -/
theorem c5_value_schema_shadowed :
    USGSValue = USGSValue_second
    ∧ USGSValue ≠ USGSValue_first
    ∧ topNames USGSValue = ["datetime", "qualifiers", "site", "value", "variable"]
    ∧ (["site_code", "site_network", "variable_code", "variable_network",
        "variable_statistic_code", "variable_statistic_name"].all
        (fun n => !(hasTopCol USGSValue n)) = true)
    ∧ init_h5_value_index_columns.filter (fun n => !(hasTopCol USGSValue n))
        = ["site_code", "site_network", "variable_code", "variable_network"]
    ∧ where_clause_columns.filter (fun n => hasTopCol USGSValue n) = ["datetime"]
    ∧ (∀ (sc sn vc vn a b : String) (uv : UpdValue),
        ((uvDict uv ++ value_variable sc sn ⟨vc, vn, some (a, b)⟩).map Prod.fst).filter
            (fun n => !(hasTopCol USGSValue n))
          = ["site_code", "site_network", "variable_code", "variable_network",
             "variable_statistic_code", "variable_statistic_name"]) := by
  refine ⟨rfl, by decide, rfl, by decide, by decide, by decide, ?_⟩
  intro sc sn vc vn a b uv
  rfl

/-- C6 counterexample: for a site code that was never synced,
`update_site_data` with a nonempty batch does not fail with a NotFound
error while resolving the site — `get_site` returns `None` without
raising, and the call then dies with a `TypeError` when the loop body
subscripts `None`; no store mutation has happened. -/
theorem c6_counterexample :
    get_site fsEmpty "01116300" HDF5_FILE_PATH = none
    ∧ (update_site_data fsEmpty "01116300" [groupA] "p").err = some PyErr.typeError
    ∧ (update_site_data fsEmpty "01116300" [groupA] "p").err ≠ some PyErr.notFound
    ∧ (update_site_data fsEmpty "01116300" [groupA] "p").result "p" = fsEmpty "p" := by
  refine ⟨by decide, by decide, by decide, by decide⟩

/-- C6 (amended): for a never-synced site code, `get_site` returns
`None` (no NotFound error); `update_site_data` then fails — before any
store mutation — with a `TypeError` raised when the first group's body
subscripts the `None` site, provided the fetched batch is nonempty; with
an empty batch the call completes without error. -/
theorem c6_unsynced_site_amended (fs : FS) (site_code path : String)
    (site_data : List DataGroup)
    (hnone : get_site fs site_code HDF5_FILE_PATH = none) :
    (site_data ≠ [] →
      (update_site_data fs site_code site_data path).err = some PyErr.typeError
      ∧ (update_site_data fs site_code site_data path).err ≠ some PyErr.notFound
      ∧ (update_site_data fs site_code site_data path).result path = fs path)
    ∧ (site_data = [] → (update_site_data fs site_code site_data path).err = none) := by
  cases site_data with
  | nil =>
    refine ⟨fun h => absurd rfl h, fun _ => ?_⟩
    simp [update_site_data, hnone, runGroups]
  | cons g gs =>
    refine ⟨fun _ => ?_, fun h => by simp at h⟩
    simp only [update_site_data, hnone, runGroups]
    exact ⟨trivial, by simp, trivial⟩

/-- Witness for the amended C6 at a concrete unsynced site code. -/
theorem c6_unsynced_site_amended_witness :
    get_site fsEmpty "X" HDF5_FILE_PATH = none
    ∧ (([groupA] : List DataGroup) ≠ [] →
        (update_site_data fsEmpty "X" [groupA] "q").err = some PyErr.typeError
        ∧ (update_site_data fsEmpty "X" [groupA] "q").err ≠ some PyErr.notFound
        ∧ (update_site_data fsEmpty "X" [groupA] "q").result "q" = fsEmpty "q")
    ∧ (([groupA] : List DataGroup) = [] →
        (update_site_data fsEmpty "X" [groupA] "q").err = none) :=
  ⟨by decide, (c6_unsynced_site_amended fsEmpty "X" "q" [groupA] (by decide)).1,
    (c6_unsynced_site_amended fsEmpty "X" "q" [groupA] (by decide)).2⟩

/-- C7: the source has no `try/finally`, so the `TypeError` raised
mid-batch for an unsynced site escapes between `openFile` and `close` —
the call reports the failure with the handle still open, while the same
call on a resolvable site closes the handle. -/
theorem c7_handle_left_open_on_failure :
    (update_site_data fsEmpty "01116300" [groupB] "p").err = some PyErr.typeError
    ∧ (update_site_data fsEmpty "01116300" [groupB] "p").closed = false
    ∧ (update_site_data fsEx "S1" [groupB] "p").err = none
    ∧ (update_site_data fsEx "S1" [groupB] "p").closed = true
    ∧ (update_site_list fsEmpty [] "p").closed = true := by
  refine ⟨by decide, by decide, by decide, by decide, by decide⟩

theorem siteAppendLoop_length : ∀ (sites : List NVal) (buf : SiteRow),
    (siteAppendLoop buf sites).length = sites.length := by
  intro sites
  induction sites with
  | nil => intro buf; rfl
  | cons s rest ih => intro buf; simp [siteAppendLoop, ih]

/-- C8: `update_site_list` performs no matching against existing rows:
it appends one new row per incoming site record, after which it flushes
exactly once; the site table grows monotonically, and two calls with
disjoint site codes leave the concatenation of the original table and
both batches' rows — nothing lost or merged. -/
theorem c8_sites_append_only (fs : FS) (b1 b2 : List NVal) (path : String)
    (hdisj : ∀ c, c ∈ b1.map (fun s => dGetStr s "code") →
      c ∉ b2.map (fun s => dGetStr s "code")) :
    ((update_site_list fs b1 path).result path).sites
        = (fs path).sites ++ siteAppendLoop defaultSiteRow b1
    ∧ (update_site_list fs b1 path).trace
        = b1.map (fun _ => Event.appendSite) ++ [Event.flush]
    ∧ (update_site_list fs b1 path).closed = true
    ∧ ((update_site_list (update_site_list fs b1 path).result b2 path).result path).sites
        = (fs path).sites ++ siteAppendLoop defaultSiteRow b1
          ++ siteAppendLoop defaultSiteRow b2
    ∧ ((update_site_list (update_site_list fs b1 path).result b2 path).result path).sites.length
        = (fs path).sites.length + b1.length + b2.length := by
  refine ⟨?_, rfl, rfl, ?_, ?_⟩
  · simp [update_site_list, setFS_get_same]
  · simp [update_site_list, setFS_get_same, List.append_assoc]
  · simp [update_site_list, setFS_get_same, siteAppendLoop_length, Nat.add_assoc]

/-- A minimal site record with code "A1". -/
def siteRecA : NVal :=
  NVal.cons "code" (NVal.str "A1") (NVal.cons "network" (NVal.str "N") NVal.nil)

/-- A minimal site record with code "B1". -/
def siteRecB : NVal :=
  NVal.cons "code" (NVal.str "B1") (NVal.cons "network" (NVal.str "N") NVal.nil)

/-- Witness for C8 with two singleton batches of disjoint codes. -/
theorem c8_sites_append_only_witness :
    (∀ c, c ∈ [siteRecA].map (fun s => dGetStr s "code") →
      c ∉ [siteRecB].map (fun s => dGetStr s "code"))
    ∧ (((update_site_list fsEmpty [siteRecA] "p").result "p").sites
        = (fsEmpty "p").sites ++ siteAppendLoop defaultSiteRow [siteRecA]
      ∧ (update_site_list fsEmpty [siteRecA] "p").trace
          = [siteRecA].map (fun _ => Event.appendSite) ++ [Event.flush]
      ∧ (update_site_list fsEmpty [siteRecA] "p").closed = true
      ∧ (((update_site_list (update_site_list fsEmpty [siteRecA] "p").result [siteRecB]
            "p").result "p").sites
          = (fsEmpty "p").sites ++ siteAppendLoop defaultSiteRow [siteRecA]
            ++ siteAppendLoop defaultSiteRow [siteRecB])
      ∧ (((update_site_list (update_site_list fsEmpty [siteRecA] "p").result [siteRecB]
            "p").result "p").sites.length
          = (fsEmpty "p").sites.length + [siteRecA].length + [siteRecB].length)) :=
  ⟨by decide, c8_sites_append_only fsEmpty [siteRecA] [siteRecB] "p" (by decide)⟩

/-- C9 counterexample: `_flatten_nested_dict` performs no validation —
a record whose key contains the separator `'/'` flattens to a flat row
instead of failing, producing exactly the same flat row as a genuinely
nested record. -/
theorem c9_counterexample :
    flatten_nested_dict (NVal.cons "a/b" (NVal.str "v") NVal.nil) "" = [("a/b", "v")]
    ∧ flatten_nested_dict (NVal.cons "a" (NVal.cons "b" (NVal.str "v") NVal.nil) NVal.nil) ""
        = [("a/b", "v")] := by
  refine ⟨by decide, by decide⟩

/-- C9 (amended): the flatten operation does not validate its keys — the
source only documents "assumes that no keys ... contain the character
'/'" — so a record with a separator in a key flattens successfully to
the path-joined binding, and its flat row collides with the flattening
of the corresponding genuinely nested record. -/
theorem c9_no_validation (k x v p : String) :
    flatten_nested_dict (NVal.cons (k ++ "/" ++ x) (NVal.str v) NVal.nil) p
      = [(p ++ (k ++ "/" ++ x), v)]
    ∧ flatten_nested_dict (NVal.cons (k ++ "/" ++ x) (NVal.str v) NVal.nil) ""
      = flatten_nested_dict (NVal.cons k (NVal.cons x (NVal.str v) NVal.nil) NVal.nil) "" := by
  constructor
  · rfl
  · simp only [flatten_cons_str, flatten_cons_cons, flatten_nil, List.append_nil]
    rw [List.cons_eq_cons]
    refine ⟨?_, rfl⟩
    rw [Prod.mk.injEq]
    refine ⟨?_, rfl⟩
    simp [String.append_assoc]

/-- C10: `get_site` ignores its `path` argument — its body calls
`get_sites()` with the default path — so its result is unchanged under
any `path` and under any replacement of the store at a non-default path;
consequently `update_site_data` at a non-default path resolves the site
from the default-path store (its error behavior is oblivious to the
store at `path`) while it writes only to `path`. -/
theorem c10_get_site_ignores_path (fs : FS) (c p p1 q : String) (σ : Store)
    (site_data : List DataGroup) (hp : p ≠ HDF5_FILE_PATH) (hq : q ≠ p) :
    get_site fs c p = get_site fs c p1
    ∧ get_site (setFS fs p σ) c p = get_site fs c p
    ∧ (update_site_data (setFS fs p σ) c site_data p).err
        = (update_site_data fs c site_data p).err
    ∧ (update_site_data fs c site_data p).result q = fs q := by
  have hread : setFS fs p σ HDF5_FILE_PATH = fs HDF5_FILE_PATH :=
    setFS_get_other fs (Ne.symm hp) σ
  have hsite_eq : ∀ c1, get_site (setFS fs p σ) c1 HDF5_FILE_PATH = get_site fs c1 HDF5_FILE_PATH := by
    intro c1
    simp [get_site, get_sites, hread]
  refine ⟨rfl, hsite_eq c, ?_, ?_⟩
  · simp only [update_site_data, hsite_eq]
    cases hs : get_site fs c HDF5_FILE_PATH with
    | none =>
      cases site_data with
      | nil => rfl
      | cons g gs => rfl
    | some s =>
      obtain ⟨st1, hrun1, -, -, -⟩ :=
        runGroups_spec s site_data ⟨(setFS fs p σ p).values, [], defaultValueRow, []⟩
      obtain ⟨st2, hrun2, -, -, -⟩ :=
        runGroups_spec s site_data ⟨(fs p).values, [], defaultValueRow, []⟩
      rw [hrun1, hrun2]
  · simp only [update_site_data]
    cases hs : get_site fs c HDF5_FILE_PATH with
    | none =>
      cases site_data with
      | nil =>
        simp only [runGroups]
        exact setFS_get_other fs hq _
      | cons g gs =>
        simp only [runGroups]
    | some s =>
      obtain ⟨st1, hrun, -, -, -⟩ :=
        runGroups_spec s site_data ⟨(fs p).values, [], defaultValueRow, []⟩
      rw [hrun]
      exact setFS_get_other fs hq _

/-- Witness for C10 at concrete distinct paths. -/
theorem c10_get_site_ignores_path_witness :
    ("other" : String) ≠ HDF5_FILE_PATH
    ∧ ("z" : String) ≠ "other"
    ∧ (get_site fsEx "S1" "other" = get_site fsEx "S1" "x"
      ∧ get_site (setFS fsEx "other" storeEx) "S1" "other" = get_site fsEx "S1" "other"
      ∧ (update_site_data (setFS fsEx "other" storeEx) "S1" [groupA] "other").err
          = (update_site_data fsEx "S1" [groupA] "other").err
      ∧ (update_site_data fsEx "S1" [groupA] "other").result "z" = fsEx "z") :=
  ⟨by decide, by decide,
    c10_get_site_ignores_path fsEx "S1" "other" "x" "z" storeEx [groupA]
      (by decide) (by decide)⟩
